import Mathlib

/-!
# cavpn-manager: tunnel applier, reconciliation engine and event source

A shallow embedding of `wireguard/wireguard.go`, `main.go`, `api/api.go` and
`api/subscriber/subscriber.go`, followed by the properties of the specification that
hold of it, and the inputs on which others fail.

Conventions of the embedding:

* byte arrays and slices are lists of naturals, a 32-byte key is a list of length 32;
* a Go `map` is an association list with pairwise distinct keys, and a `range`
  over it visits some permutation of its entries, chosen by the environment;
* instants are integers counting nanoseconds from the zero `time.Time`, durations are
  integers saturating at the 64-bit bounds, as `Time.Sub` does; the clock is read as one
  instant `now` during a call of `UpdatePeers`;
* the kernel tunnel device, the external parsers and the packet filter are the
  environment of the program: they are kept explicit (a kernel state that is threaded
  through every call, parser and packet-filter operations taken as parameters).
-/

/-! ## Go builtins -/

namespace Go

/-- Go `map[K]V`, as an association list with distinct keys. -/
abbrev Map (κ ν : Type) := List (κ × ν)

/-- The read `m[k]` with its `ok` flag. -/
def Map.get {κ ν : Type} [DecidableEq κ] : Map κ ν → κ → Option ν
  | [], _ => none
  | (k', v) :: rest, k => if k' = k then some v else Map.get rest k

/-- The assignment `m[k] = v`: overwrite the entry of `k`, or add one. -/
def Map.set {κ ν : Type} [DecidableEq κ] : Map κ ν → κ → ν → Map κ ν
  | [], k, v => [(k, v)]
  | (k', v') :: rest, k, v => if k' = k then (k, v) :: rest else (k', v') :: Map.set rest k v

/-- The keys of a map. -/
def Map.keys {κ ν : Type} (m : Map κ ν) : List κ := m.map Prod.fst

/-- Go builtin `copy(dst, src)`: the first `min (len dst) (len src)` elements of `dst`
are overwritten by those of `src`; the value is the new content of `dst`. -/
def copy (dst src : List Nat) : List Nat := src.take dst.length ++ dst.drop src.length

end Go

/-! ## package time -/

namespace time

/-- An instant: nanoseconds since the zero `time.Time`. -/
abbrev Time := Int

/-- A duration in nanoseconds (a signed 64-bit count). -/
abbrev Duration := Int

def maxDuration : Duration := 2 ^ 63 - 1

def minDuration : Duration := -(2 ^ 63)

def Second : Duration := 1000000000

def Minute : Duration := 60 * Second

/-- `t.IsZero()`. -/
def IsZero (t : Time) : Bool := decide (t = 0)

/-- `t.Sub(u)`: the difference, saturated to the range of a `Duration`. -/
def Sub (t u : Time) : Duration :=
  if t - u > maxDuration then maxDuration
  else if t - u < minDuration then minDuration
  else t - u

/-- `time.Since(t)`, the clock reading `now` made explicit. -/
def Since (now t : Time) : Duration := Sub now t

end time

/-! ## package net and package cvtypes (external types) -/

namespace net

/-- `net.IPNet`: address bytes and mask bytes. -/
structure IPNet where
  IP : List Nat
  Mask : List Nat
  deriving DecidableEq, Repr

end net

namespace cvtypes

/-- `cvtypes.KeyLen`. -/
def KeyLen : Nat := 32

/-- `cvtypes.Key`, a `[32]byte`. -/
abbrev Key := { l : List Nat // l.length = KeyLen }

/-- The zero value of `cvtypes.Key`. -/
def emptyKey : Key := ⟨List.replicate KeyLen 0, by simp⟩

/-- `cvtypes.Peer`: a peer as the kernel reports it (the fields the manager reads). -/
structure Peer where
  PublicKey : Key
  PresharedKey : Key
  AllowedIPs : List net.IPNet
  LastHandshakeTime : time.Time
  deriving DecidableEq

/-- `cvtypes.PeerConfig`: one entry of a configuration batch. `PresharedKey` is a
pointer in Go, `none` is the nil pointer. -/
structure PeerConfig where
  PublicKey : Key
  Remove : Bool := false
  PresharedKey : Option Key := none
  ReplaceAllowedIPs : Bool := false
  AllowedIPs : List net.IPNet := []
  deriving DecidableEq

/-- `cvtypes.Config`. -/
structure Config where
  ReplacePeers : Bool := false
  Peers : List PeerConfig := []
  deriving DecidableEq

end cvtypes

/-! ## package api -/

namespace api

/-- `api.cavpnPeer`. -/
structure cavpnPeer where
  IPv4 : String
  IPv6 : String
  Ports : List Int
  Pubkey : String
  deriving DecidableEq

/-- `api.cavpnPeerList`. -/
abbrev cavpnPeerList := List cavpnPeer

end api

/-! ## package iputil -/

namespace iputil

/-- Modelled from the spec: `iputil.EqualIPNet`, whose source file is not among the
sources. The spec compares the two CIDR lists as ordered tuples, entry by entry. -/
def EqualIPNet (a b : List net.IPNet) : Bool := decide (a = b)

end iputil

/-! ## The environment of the program -/

/-- What the program takes from its libraries and runtime: the two external parsers,
the JSON decoder, and the order in which a `range` statement visits a map (any
permutation of the entries; the choice may differ from interface to interface). -/
structure Env where
  /-- The external `cvtypes.ParseKey`, `none` for an error. -/
  ParseKey : String → Option cvtypes.Key
  /-- The network that the external `net.ParseCIDR` returns, `none` for an error. -/
  ParseCIDR : String → Option net.IPNet
  /-- The external `json.Unmarshal` into a `cavpnPeerList`, `none` for an error. -/
  Unmarshal : String → Option api.cavpnPeerList
  /-- The visiting order of `range peerMap` while interface `d` is processed. -/
  rangePeerMap : String → Go.Map cvtypes.Key (List net.IPNet) →
    List (cvtypes.Key × List net.IPNet)
  /-- The visiting order of `range existingPeerMap` while interface `d` is processed. -/
  rangeExisting : String → Go.Map cvtypes.Key cvtypes.Peer → List (cvtypes.Key × cvtypes.Peer)
  rangePeerMap_perm : ∀ d m, (rangePeerMap d m).Perm m
  rangeExisting_perm : ∀ d m, (rangeExisting d m).Perm m

/-! ## package statsd and package cvctrl (the kernel tunnel capability) -/

namespace statsd

/-- One emission to the metrics sink. -/
inductive Metric where
  | Increment (bucket : String)
  | Gauge (bucket : String) (value : Nat)
  | Timing (bucket : String)
  deriving DecidableEq

end statsd

namespace cvctrl

open cvtypes

/-- Modelled from the spec: the state of one tunnel interface in the kernel, which the
program reaches only through the external `cvctrl` client. `readFails` says that
`Device` returns an error; `cfgFaults` scripts the outcome of the coming
`ConfigureDevice` calls (`true`: that call fails), calls beyond the script succeed.
The kernel holds a public key once at most: the properties below take `peers` with
pairwise distinct keys. -/
structure Iface where
  peers : List Peer := []
  readFails : Bool := false
  cfgFaults : List Bool := []
  deriving DecidableEq

/-- The kernel: one interface state per interface name. -/
abbrev Kernel := String → Iface

/-- An interface whose device read and configuration calls succeed. -/
def Iface.healthy (i : Iface) : Prop := i.readFails = false ∧ i.cfgFaults = []

instance (i : Iface) : Decidable i.healthy :=
  inferInstanceAs (Decidable (i.readFails = false ∧ i.cfgFaults = []))

/-- The peer with public key `k` among `ps`. -/
def peerAt (ps : List Peer) (k : Key) : Option Peer := ps.find? (fun p => decide (p.PublicKey = k))

/-- The public keys present among `ps`. -/
def keysOf (ps : List Peer) : List Key := ps.map (fun p => p.PublicKey)

/-- Modelled from the spec: the effect of a non-removing entry on a peer that exists:
allowed IPs are replaced when the flag is set and added otherwise, the preshared key
is overwritten only when the entry carries one. -/
def updatePeer (c : PeerConfig) (p : Peer) : Peer :=
  { p with
    AllowedIPs := if c.ReplaceAllowedIPs then c.AllowedIPs else p.AllowedIPs ++ c.AllowedIPs
    PresharedKey := c.PresharedKey.getD p.PresharedKey }

/-- Modelled from the spec: the peer that a non-removing entry creates: no handshake
yet (zero time), the zero preshared key unless the entry carries one. -/
def newPeer (c : PeerConfig) : Peer :=
  { PublicKey := c.PublicKey
    PresharedKey := c.PresharedKey.getD emptyKey
    AllowedIPs := c.AllowedIPs
    LastHandshakeTime := 0 }

/-- Modelled from the spec: the kernel applies one entry of a batch: `Remove` deletes
the peer with that key, any other entry updates the peer or creates it. The other
peers, their allowed IPs included, are left as they are. -/
def applyPeerConfig (ps : List Peer) (c : PeerConfig) : List Peer :=
  if c.Remove then ps.filter (fun p => decide (p.PublicKey ≠ c.PublicKey))
  else if ps.any (fun p => decide (p.PublicKey = c.PublicKey)) then
    ps.map (fun p => if p.PublicKey = c.PublicKey then updatePeer c p else p)
  else ps ++ [newPeer c]

/-- Modelled from the spec: the kernel applies the entries of a batch in order,
starting from no peer at all when the whole-replace flag is set. -/
def applyConfig (ps : List Peer) (cfg : Config) : List Peer :=
  cfg.Peers.foldl applyPeerConfig (if cfg.ReplacePeers then [] else ps)

/-- A call made through the `cvctrl` client, with its outcome. -/
inductive Call where
  | Device (d : String) (ok : Bool)
  | ConfigureDevice (d : String) (cfg : Config) (ok : Bool)
  deriving DecidableEq

/-- The interface a call addresses. -/
def Call.name : Call → String
  | Call.Device d _ => d
  | Call.ConfigureDevice d _ _ => d

end cvctrl

/-- Everything outside the process that the tunnel applier touches: the kernel, the
record of the calls made to it, the log and the metrics sink. -/
structure World where
  kernel : cvctrl.Kernel
  calls : List cvctrl.Call := []
  logs : List String := []
  metrics : List statsd.Metric := []

namespace World

/-- The call `log.Printf`. -/
def log (s : World) (line : String) : World := { s with logs := s.logs ++ [line] }

/-- An emission to the metrics client. -/
def emit (s : World) (m : statsd.Metric) : World := { s with metrics := s.metrics ++ [m] }

end World

namespace cvctrl

open cvtypes

/-- The call `client.Device(d)`: the peers of the interface, or `none` for an error. -/
def Device (s : World) (d : String) : Option (List Peer) × World :=
  if (s.kernel d).readFails then (none, { s with calls := s.calls ++ [Call.Device d false] })
  else (some (s.kernel d).peers, { s with calls := s.calls ++ [Call.Device d true] })

/-- Modelled from the spec: a configuration call on one interface: `true` when it
returns no error. A failing call consumes its fault and leaves the peers as they
were. -/
def Iface.configure (i : Iface) (cfg : Config) : Bool × Iface :=
  match i.cfgFaults with
  | true :: rest => (false, { i with cfgFaults := rest })
  | faults => (true, { i with peers := applyConfig i.peers cfg, cfgFaults := faults.tail })

/-- The call `client.ConfigureDevice(d, cfg)`: `true` when it returns no error. -/
def ConfigureDevice (s : World) (d : String) (cfg : Config) : Bool × World :=
  (((s.kernel d).configure cfg).1,
    { s with
      kernel := Function.update s.kernel d ((s.kernel d).configure cfg).2
      calls := s.calls ++ [Call.ConfigureDevice d cfg ((s.kernel d).configure cfg).1] })

end cvctrl

/-! ## package cavpn: wireguard/wireguard.go -/

namespace wireguard

open cvtypes

/-- The receiver `cavpn`: the configured interface names (the client and metrics
handles are the `World`). -/
structure cavpn where
  interfaces : List String

/-- `parsePeer`: key, IPv4 network and IPv6 network, or `none` for an error. -/
def parsePeer (env : Env) (peer : api.cavpnPeer) : Option (Key × net.IPNet × net.IPNet) :=
  match env.ParseKey peer.Pubkey with
  | none => none
  | some key =>
    match env.ParseCIDR peer.IPv4 with
    | none => none
    | some ipv4 =>
      match env.ParseCIDR peer.IPv6 with
      | none => none
      | some ipv6 => some (key, ipv4, ipv6)

/-- One iteration of the loop of `mapPeers`. -/
def mapPeersStep (env : Env) (peerMap : Go.Map Key (List net.IPNet)) (peer : api.cavpnPeer) :
    Go.Map Key (List net.IPNet) :=
  match parsePeer env peer with
  | none => peerMap
  | some (key, ipv4, ipv6) => peerMap.set key [ipv4, ipv6]

/-- `mapPeers`. -/
def mapPeers (env : Env) (peers : api.cavpnPeerList) : Go.Map Key (List net.IPNet) :=
  peers.foldl (mapPeersStep env) []

/-- `mapExistingPeers`. -/
def mapExistingPeers (peers : List Peer) : Go.Map Key Peer :=
  peers.foldl (fun peerMap peer => peerMap.set peer.PublicKey peer) []

def handshakeInterval : time.Duration := time.Minute * 2

/-- `countConnectedPeers`, the clock reading `now` made explicit. -/
def countConnectedPeers (now : time.Time) (peers : List Peer) : Nat :=
  peers.foldl
    (fun connectedPeers peer =>
      if time.Since now peer.LastHandshakeTime ≤ handshakeInterval then connectedPeers + 1
      else connectedPeers)
    0

def inactivityTime : time.Duration := time.Minute * 3

/-- `needsReset`, the clock reading `now` made explicit. -/
def needsReset (now : time.Time) (peer : Peer) : Bool :=
  if !time.IsZero peer.LastHandshakeTime &&
      decide (time.Since now peer.LastHandshakeTime > inactivityTime) then
    true
  else false

/-- The lines `var copiedKey cvtypes.Key; copy(copiedKey[:], peer.PresharedKey[:])`. -/
def copiedKey (psk : Key) : Key :=
  ⟨Go.copy emptyKey.val psk.val, by
    have h := psk.property
    simp [Go.copy, emptyKey, h, KeyLen] at *⟩

/-- The record `peerCfg` built in the reset branch of `UpdatePeers`. -/
def resetPeerCfg (key : Key) (peer : Peer) : PeerConfig :=
  let peerCfg : PeerConfig :=
    { PublicKey := key, ReplaceAllowedIPs := true, AllowedIPs := peer.AllowedIPs }
  if peer.PresharedKey ≠ emptyKey then
    { peerCfg with PresharedKey := some (copiedKey peer.PresharedKey) }
  else peerCfg

/-- One iteration of the first loop of `UpdatePeers` (over the peers from the API). -/
def desiredStep (existingPeerMap : Go.Map Key Peer) (cfgPeers : List PeerConfig)
    (entry : Key × List net.IPNet) : List PeerConfig :=
  match existingPeerMap.get entry.1 with
  | none =>
    cfgPeers ++ [{ PublicKey := entry.1, ReplaceAllowedIPs := true, AllowedIPs := entry.2 }]
  | some existingPeer =>
    if !iputil.EqualIPNet entry.2 existingPeer.AllowedIPs then
      cfgPeers ++ [{ PublicKey := entry.1, ReplaceAllowedIPs := true, AllowedIPs := entry.2 }]
    else cfgPeers

/-- One iteration of the second loop of `UpdatePeers` (over the peers on the
interface); the state is the pair `(cfgPeers, resetPeers)`. -/
def existingStep (now : time.Time) (peerMap : Go.Map Key (List net.IPNet))
    (acc : List PeerConfig × List PeerConfig) (entry : Key × Peer) :
    List PeerConfig × List PeerConfig :=
  match peerMap.get entry.1 with
  | none => (acc.1 ++ [{ PublicKey := entry.1, Remove := true }], acc.2)
  | some _ =>
    if needsReset now entry.2 then
      (acc.1 ++ [{ PublicKey := entry.1, Remove := true }], acc.2 ++ [resetPeerCfg entry.1 entry.2])
    else acc

/-- The two loops of `UpdatePeers` for interface `d` with peers `device`: the pair
`(cfgPeers, resetPeers)`. -/
def batches (env : Env) (now : time.Time) (peerMap : Go.Map Key (List net.IPNet))
    (d : String) (device : List Peer) : List PeerConfig × List PeerConfig :=
  let existingPeerMap := mapExistingPeers device
  let cfgPeers := (env.rangePeerMap d peerMap).foldl (desiredStep existingPeerMap) []
  (env.rangeExisting d existingPeerMap).foldl (existingStep now peerMap) (cfgPeers, [])

/-- The body of the loop over the interfaces in `UpdatePeers`; each `continue` of the
source is a return of this function. The state is the world and `connectedPeers`. -/
def updateInterface (env : Env) (now : time.Time) (peerMap : Go.Map Key (List net.IPNet))
    (st : World × Nat) (d : String) : World × Nat :=
  match cvctrl.Device st.1 d with
  | (none, s1) => (s1.log ("error connecting to cavpn interface " ++ d), st.2)
  | (some device, s1) =>
    let connectedPeers := st.2 + countConnectedPeers now device
    let b := batches env now peerMap d device
    if b.1.length = 0 then (s1, connectedPeers)
    else
      match cvctrl.ConfigureDevice s1 d { Peers := b.1 } with
      | (false, s2) => (s2.log ("error configuring cavpn interface " ++ d), connectedPeers)
      | (true, s2) =>
        if b.2.length = 0 then (s2, connectedPeers)
        else
          match cvctrl.ConfigureDevice s2 d { Peers := b.2 } with
          | (false, s3) => (s3.log ("error configuring cavpn interface " ++ d), connectedPeers)
          | (true, s3) => (s3, connectedPeers)

/-- `UpdatePeers`. It returns nothing to its caller: the value is the world it leaves. -/
def UpdatePeers (env : Env) (now : time.Time) (w : cavpn) (peers : api.cavpnPeerList)
    (s : World) : World :=
  let peerMap := mapPeers env peers
  let r := w.interfaces.foldl (updateInterface env now peerMap) (s, 0)
  r.1.emit (statsd.Metric.Gauge "connected_peers" r.2)

/-- The body of the loop of `AddPeer`. -/
def addPeerOn (key : Key) (ipv4 ipv6 : net.IPNet) (s : World) (d : String) : World :=
  match cvctrl.ConfigureDevice s d
      { Peers :=
          [{ PublicKey := key, ReplaceAllowedIPs := true, AllowedIPs := [ipv4, ipv6] }] } with
  | (false, s1) => s1.log ("error configuring cavpn interface " ++ d)
  | (true, s1) => s1

/-- `AddPeer`. -/
def AddPeer (env : Env) (w : cavpn) (peer : api.cavpnPeer) (s : World) : World :=
  match parsePeer env peer with
  | none => s
  | some (key, ipv4, ipv6) => w.interfaces.foldl (addPeerOn key ipv4 ipv6) s

/-- The body of the loop of `RemovePeer`. -/
def removePeerOn (key : Key) (s : World) (d : String) : World :=
  match cvctrl.ConfigureDevice s d { Peers := [{ PublicKey := key, Remove := true }] } with
  | (false, s1) => s1.log ("error configuring cavpn interface " ++ d)
  | (true, s1) => s1

/-- `RemovePeer`. -/
def RemovePeer (env : Env) (w : cavpn) (peer : api.cavpnPeer) (s : World) : World :=
  match parsePeer env peer with
  | none => s
  | some (key, _, _) => w.interfaces.foldl (removePeerOn key) s

end wireguard

/-! ## package api: api/api.go -/

namespace api

/-- What the HTTP exchange of `GetcavpnPeers` comes to: an error of `http.NewRequest`,
of `Client.Do`, of `ioutil.ReadAll`, or a response body. -/
inductive Exchange where
  | requestError (err : String)
  | doError (err : String)
  | readError (err : String)
  | body (content : String)

/-- `GetcavpnPeers`, on the outcome of its HTTP exchange. -/
def GetcavpnPeers (env : Env) (x : Exchange) : Except String cavpnPeerList :=
  match x with
  | Exchange.requestError err => Except.error err
  | Exchange.doError err => Except.error err
  | Exchange.readError err => Except.error err
  | Exchange.body content =>
    match env.Unmarshal content with
    | none => Except.error "error decoding cavpn peers"
    | some decodedResponse => Except.ok decodedResponse

end api

/-! ## package subscriber: api/subscriber/subscriber.go -/

namespace subscriber

/-- `subscriber.cavpnEvent`. -/
structure cavpnEvent where
  Action : String
  Peer : api.cavpnPeer
  deriving DecidableEq

/-- What the network would answer to a `wsjson.Read`. -/
inductive ReadResult where
  | event (v : cavpnEvent)
  | error

/-- What the network would answer to a `websocket.Dial`: a connection or an error. -/
inductive DialResult where
  | conn (c : Nat)
  | error

/-- The goroutine of the subscriber that is alive: none, `read` about to call
`wsjson.Read` on a connection, `read` holding an event on the send `channel <- v`, or
`reconnect`. Each one ends as it starts the next, so there is at most one. -/
inductive Task where
  | idle
  | read (conn : Nat)
  | send (conn : Nat) (v : cavpnEvent)
  | reconnect
  deriving DecidableEq

/-- A call of the subscriber to a library or to the runtime. -/
inductive Call where
  | Dial
  | Read (conn : Nat)
  | Close (conn : Nat)
  | Sleep
  deriving DecidableEq

/-- The state of the event source and what it has done so far. -/
structure State where
  task : Task := Task.idle
  /-- Number of `websocket.Dial` calls made. -/
  dials : Nat := 0
  /-- Number of `time.Sleep(time.Second)` calls made. -/
  sleeps : Nat := 0
  /-- The connections closed by `conn.Close`. -/
  closed : List Nat := []
  /-- The events sent on the channel, in order. -/
  channel : List cavpnEvent := []
  /-- The counters incremented, in order. -/
  metrics : List String := []
  /-- The calls made, in order. -/
  calls : List Call := []
  deriving DecidableEq

/-- The external `wsjson.Read(ctx, conn, &v)`: it fails once `ctx` is cancelled. -/
def wsjsonRead (ctxDone : Bool) (answer : ReadResult) : ReadResult :=
  if ctxDone then ReadResult.error else answer

/-- The external `websocket.Dial(ctx, ...)`: it fails once `ctx` is cancelled. -/
def websocketDial (ctxDone : Bool) (answer : DialResult) : DialResult :=
  if ctxDone then DialResult.error else answer

/-- `connect`: `true` when it returns no error; on success the `read` goroutine is
started on the new connection. -/
def connect (ctxDone : Bool) (answer : DialResult) (s : State) : Bool × State :=
  match websocketDial ctxDone answer with
  | DialResult.error => (false, { s with dials := s.dials + 1, calls := s.calls ++ [Call.Dial] })
  | DialResult.conn c =>
    (true, { s with dials := s.dials + 1, calls := s.calls ++ [Call.Dial], task := Task.read c })

/-- `Subscribe`. -/
def Subscribe (ctxDone : Bool) (answer : DialResult) (s : State) : Bool × State :=
  connect ctxDone answer s

/-- The first half of an iteration of the loop of `read` on connection `conn`: the call
`wsjson.Read` with its error branch. On success the goroutine holds the event `v` and
goes on to the send. -/
def read (ctxDone : Bool) (answer : ReadResult) (conn : Nat) (s : State) : State :=
  match wsjsonRead ctxDone answer with
  | ReadResult.error =>
    { s with
      metrics := s.metrics ++ ["websocket_error"]
      closed := s.closed ++ [conn]
      calls := s.calls ++ [Call.Read conn, Call.Close conn]
      task := Task.reconnect }
  | ReadResult.event v => { s with calls := s.calls ++ [Call.Read conn], task := Task.send conn v }

/-- The second half of an iteration of the loop of `read`: the send `channel <- v` on the
unbuffered channel. It does not look at `ctx`: it stays blocked until the consumer
receives (`ready`), then the loop goes back to `wsjson.Read`. -/
def send (ready : Bool) (conn : Nat) (v : cavpnEvent) (s : State) : State :=
  if ready then { s with channel := s.channel ++ [v], task := Task.read conn } else s

/-- `reconnect`: sleep, then `connect`; on an error the next `reconnect` goroutine is
started. -/
def reconnect (ctxDone : Bool) (answer : DialResult) (s : State) : State :=
  match connect ctxDone answer
      { s with sleeps := s.sleeps + 1, calls := s.calls ++ [Call.Sleep] } with
  | (false, s1) =>
    { s1 with metrics := s1.metrics ++ ["websocket_reconnect_error"], task := Task.reconnect }
  | (true, s1) => { s1 with metrics := s1.metrics ++ ["websocket_reconnect_success"] }

/-- What the surroundings would answer to the next step of the subscriber: the network
to a read and to a dial, and whether the consumer of the channel is ready to receive. -/
structure Answer where
  toRead : ReadResult
  toDial : DialResult
  consumerReady : Bool

/-- One step of the goroutine that is alive. -/
def step (ctxDone : Bool) (s : State) (a : Answer) : State :=
  match s.task with
  | Task.idle => s
  | Task.read conn => read ctxDone a.toRead conn s
  | Task.send conn v => send a.consumerReady conn v s
  | Task.reconnect => reconnect ctxDone a.toDial s

/-- The run of the event source after the token is cancelled, one step per answer. -/
def runCancelled (s : State) (answers : List Answer) : State :=
  answers.foldl (step true) s

/-- The calls of `n` iterations of `reconnect`: each one a sleep, then a dial. -/
def backoffCalls : Nat → List Call
  | 0 => []
  | n + 1 => Call.Sleep :: Call.Dial :: backoffCalls n

end subscriber

/-! ## package portforward -/

namespace portforward

/-- Modelled from the spec: package `portforward` is not among the sources; the spec
gives its three operations by their contract only, so they are taken as arbitrary
functions on a packet-filter state `π`. -/
structure Portforward (π : Type) where
  UpdatePortforwarding : api.cavpnPeerList → π → π
  AddPortforwarding : api.cavpnPeer → π → π
  RemovePortforwarding : api.cavpnPeer → π → π

end portforward

/-! ## package main: main.go -/

namespace manager

/-- An operation of one of the two appliers, as called by the engine. -/
inductive Op where
  | UpdatePeers (peers : api.cavpnPeerList)
  | AddPeer (peer : api.cavpnPeer)
  | RemovePeer (peer : api.cavpnPeer)
  | UpdatePortforwarding (peers : api.cavpnPeerList)
  | AddPortforwarding (peer : api.cavpnPeer)
  | RemovePortforwarding (peer : api.cavpnPeer)
  deriving DecidableEq

/-- The state the engine acts on: the world of the tunnel applier, the packet-filter
state, and the record of the applier operations called so far. -/
structure System (π : Type) where
  world : World
  pf : π
  ops : List Op := []

/-- The package-level variables `cv` and `pf` of `main.go`, with the environment and
the clock reading used by the tunnel applier. -/
structure Globals (π : Type) where
  env : Env
  now : time.Time
  cv : wireguard.cavpn
  pf : portforward.Portforward π

/-- The call `cv.UpdatePeers(peers)`. -/
def cvUpdatePeers {π : Type} (g : Globals π) (peers : api.cavpnPeerList) (s : System π) :
    System π :=
  { s with
    world := wireguard.UpdatePeers g.env g.now g.cv peers s.world
    ops := s.ops ++ [Op.UpdatePeers peers] }

/-- The call `cv.AddPeer(peer)`. -/
def cvAddPeer {π : Type} (g : Globals π) (peer : api.cavpnPeer) (s : System π) : System π :=
  { s with world := wireguard.AddPeer g.env g.cv peer s.world, ops := s.ops ++ [Op.AddPeer peer] }

/-- The call `cv.RemovePeer(peer)`. -/
def cvRemovePeer {π : Type} (g : Globals π) (peer : api.cavpnPeer) (s : System π) : System π :=
  { s with
    world := wireguard.RemovePeer g.env g.cv peer s.world
    ops := s.ops ++ [Op.RemovePeer peer] }

/-- The call `pf.UpdatePortforwarding(peers)`. -/
def pfUpdatePortforwarding {π : Type} (g : Globals π) (peers : api.cavpnPeerList) (s : System π) :
    System π :=
  { s with
    pf := g.pf.UpdatePortforwarding peers s.pf
    ops := s.ops ++ [Op.UpdatePortforwarding peers] }

/-- The call `pf.AddPortforwarding(peer)`. -/
def pfAddPortforwarding {π : Type} (g : Globals π) (peer : api.cavpnPeer) (s : System π) :
    System π :=
  { s with pf := g.pf.AddPortforwarding peer s.pf, ops := s.ops ++ [Op.AddPortforwarding peer] }

/-- The call `pf.RemovePortforwarding(peer)`. -/
def pfRemovePortforwarding {π : Type} (g : Globals π) (peer : api.cavpnPeer)
    (s : System π) : System π :=
  { s with
    pf := g.pf.RemovePortforwarding peer s.pf
    ops := s.ops ++ [Op.RemovePortforwarding peer] }

/-- An emission to the package-level `metrics` client. -/
def emit {π : Type} (m : statsd.Metric) (s : System π) : System π :=
  { s with world := s.world.emit m }

/-- `handleEvent`. -/
def handleEvent {π : Type} (g : Globals π) (event : subscriber.cavpnEvent) (s : System π) :
    System π :=
  if event.Action = "ADD" then pfAddPortforwarding g event.Peer (cvAddPeer g event.Peer s)
  else if event.Action = "REMOVE" then
    pfRemovePortforwarding g event.Peer (cvRemovePeer g event.Peer s)
  else s

/-- `synchronize`, on the outcome `x` of the HTTP exchange of its roster fetch. The
deferred `Send("synchronize_time")` runs last on both paths. -/
def synchronize {π : Type} (g : Globals π) (x : api.Exchange) (s : System π) : System π :=
  match api.GetcavpnPeers g.env x with
  | Except.error err =>
    let s := emit (statsd.Metric.Increment "error_getting_peers") s
    let s := { s with world := s.world.log ("error getting peers " ++ err) }
    emit (statsd.Metric.Timing "synchronize_time") s
  | Except.ok peers =>
    let s := emit (statsd.Metric.Timing "get_cavpn_peers_time") s
    let s := cvUpdatePeers g peers s
    let s := emit (statsd.Metric.Timing "update_peers_time") s
    let s := pfUpdatePortforwarding g peers s
    let s := emit (statsd.Metric.Timing "update_portforwarding_time") s
    emit (statsd.Metric.Timing "synchronize_time") s

end manager

/-! ## Concrete inputs

The peers of the test fixture of `wireguard_test.go`, and an environment whose parsers
are defined on the strings of these peers only, where they return what the Go
libraries return for these strings. -/

namespace fixture

open cvtypes

/-- The key of the test fixture: 32 bytes `a`. -/
def keyA : Key := ⟨List.replicate 32 97, rfl⟩

/-- A second key: 32 bytes `b`. -/
def keyB : Key := ⟨List.replicate 32 98, rfl⟩

/-- A preshared key that is not zero: 32 bytes `7`. -/
def psk7 : Key := ⟨List.replicate 32 7, rfl⟩

/-- Standard base64 of 32 bytes `a`. -/
def pubkeyA : String := "YWFhYWFhYWFhYWFhYWFhYWFhYWFhYWFhYWFhYWFhYWE="

/-- Standard base64 of 32 bytes `b`. -/
def pubkeyB : String := "YmJiYmJiYmJiYmJiYmJiYmJiYmJiYmJiYmJiYmJiYmI="

def mask32 : List Nat := List.replicate 4 255

def mask128 : List Nat := List.replicate 16 255

/-- The network `10.99.0.1/32`. -/
def v4_1 : net.IPNet := { IP := [10, 99, 0, 1], Mask := mask32 }

/-- The network `10.99.0.2/32`. -/
def v4_2 : net.IPNet := { IP := [10, 99, 0, 2], Mask := mask32 }

/-- The network `fc00:bbbb:bbbb:bb01::1/128`. -/
def v6_1 : net.IPNet :=
  { IP := [252, 0, 187, 187, 187, 187, 187, 1, 0, 0, 0, 0, 0, 0, 0, 1], Mask := mask128 }

/-- The network `fc00:bbbb:bbbb:bb01::2/128`. -/
def v6_2 : net.IPNet :=
  { IP := [252, 0, 187, 187, 187, 187, 187, 1, 0, 0, 0, 0, 0, 0, 0, 2], Mask := mask128 }

def ParseKey (s : String) : Option Key :=
  if s = pubkeyA then some keyA else if s = pubkeyB then some keyB else none

def ParseCIDR (s : String) : Option net.IPNet :=
  if s = "10.99.0.1/32" then some v4_1
  else if s = "10.99.0.2/32" then some v4_2
  else if s = "fc00:bbbb:bbbb:bb01::1/128" then some v6_1
  else if s = "fc00:bbbb:bbbb:bb01::2/128" then some v6_2
  else none

/-- The environment of the examples: maps are visited in the order of insertion. -/
def env : Env :=
  { ParseKey := ParseKey
    ParseCIDR := ParseCIDR
    Unmarshal := fun _ => none
    rangePeerMap := fun _ m => m
    rangeExisting := fun _ m => m
    rangePeerMap_perm := fun _ m => List.Perm.refl m
    rangeExisting_perm := fun _ m => List.Perm.refl m }

/-- The roster peer of the test: `apiFixture[0]`. -/
def peerA1 : api.cavpnPeer :=
  { IPv4 := "10.99.0.1/32", IPv6 := "fc00:bbbb:bbbb:bb01::1/128", Ports := [1234, 4321],
    Pubkey := pubkeyA }

/-- The same peer after the test changes its addresses. -/
def peerA2 : api.cavpnPeer :=
  { IPv4 := "10.99.0.2/32", IPv6 := "fc00:bbbb:bbbb:bb01::2/128", Ports := [1234, 4321],
    Pubkey := pubkeyA }

/-- A roster peer with an empty public key. -/
def peerNoKey : api.cavpnPeer :=
  { IPv4 := "10.99.0.2/32", IPv6 := "fc00:bbbb:bbbb:bb01::2/128", Ports := [], Pubkey := "" }

/-- A roster peer whose key parses and whose IPv4 field is empty. -/
def peerANoV4 : api.cavpnPeer :=
  { IPv4 := "", IPv6 := "fc00:bbbb:bbbb:bb01::1/128", Ports := [], Pubkey := pubkeyA }

/-- Four minutes. -/
def fourMinutes : time.Duration := 4 * time.Minute

/-- A clock reading: some instant `2 ^ 60` nanoseconds after the zero time. -/
def now : time.Time := 2 ^ 60

/-- Peer A as the kernel reports it: first addresses, a preshared key, last handshake
four minutes before `now`. -/
def staleA : Peer :=
  { PublicKey := keyA, PresharedKey := psk7, AllowedIPs := [v4_1, v6_1],
    LastHandshakeTime := now - fourMinutes }

/-- Peer A as the kernel reports it one minute after a handshake. -/
def liveA : Peer :=
  { PublicKey := keyA, PresharedKey := psk7, AllowedIPs := [v4_1, v6_1],
    LastHandshakeTime := now - time.Minute }

/-- Peer A as the kernel reports it when it never made a handshake. -/
def freshA : Peer :=
  { PublicKey := keyA, PresharedKey := emptyKey, AllowedIPs := [v4_1, v6_1],
    LastHandshakeTime := 0 }

/-- The applier of the test: the single interface `cv0`. -/
def cv : wireguard.cavpn := { interfaces := ["cv0"] }

/-- A kernel whose interfaces all hold the peers `ps` and never fail. -/
def kernelOf (ps : List Peer) : cvctrl.Kernel := fun _ => { peers := ps }

/-- The world around a kernel whose interfaces all hold `ps`. -/
def worldOf (ps : List Peer) : World := { kernel := kernelOf ps }

/-- An applier with two interfaces. -/
def cvTwo : wireguard.cavpn := { interfaces := ["cv0", "cv1"] }

/-- A kernel whose interface `cv0` cannot be read; every interface holds `ps`. -/
def kernelUnreadable (ps : List Peer) : cvctrl.Kernel :=
  fun d => if d = "cv0" then { peers := ps, readFails := true } else { peers := ps }

/-- A kernel whose interface `cv0` rejects its next configuration call. -/
def kernelRejecting (ps : List Peer) : cvctrl.Kernel :=
  fun d => if d = "cv0" then { peers := ps, cfgFaults := [true] } else { peers := ps }

/-- An event with an unknown action. -/
def eventFoo : subscriber.cavpnEvent := { Action := "FOO", Peer := peerA1 }

/-- An answer of the surroundings: the read fails, the dial would give connection 5, the
consumer is ready. -/
def answer : subscriber.Answer :=
  { toRead := subscriber.ReadResult.error, toDial := subscriber.DialResult.conn 5,
    consumerReady := true }

/-- An answer of the surroundings: the read gives the event `eventFoo`. -/
def answerEvent : subscriber.Answer :=
  { toRead := subscriber.ReadResult.event eventFoo, toDial := subscriber.DialResult.error,
    consumerReady := true }

/-- A packet filter whose state is the list of peers forwarded. -/
def pf : portforward.Portforward (List api.cavpnPeer) :=
  { UpdatePortforwarding := fun peers _ => peers
    AddPortforwarding := fun peer st => st ++ [peer]
    RemovePortforwarding := fun peer st => st.filter (fun q => decide (q ≠ peer)) }

/-- The package-level variables of the engine in the examples. -/
def globals : manager.Globals (List api.cavpnPeer) :=
  { env := env, now := now, cv := cv, pf := pf }

end fixture

/-! ## Pointwise view of a pass, used by the proofs -/

namespace cvctrl

open cvtypes

/-- The effect of one batch entry on what an interface holds at the key of the entry. -/
def stepAt (o : Option Peer) (c : PeerConfig) : Option Peer :=
  if c.Remove then none
  else
    match o with
    | some p => some (updatePeer c p)
    | none => some (newPeer c)

end cvctrl

namespace wireguard

open cvtypes

/-- The entry that the first loop of `UpdatePeers` appends for a map entry, if any. -/
def desiredEntry (existingPeerMap : Go.Map Key Peer) (entry : Key × List net.IPNet) :
    Option PeerConfig :=
  match existingPeerMap.get entry.1 with
  | none => some { PublicKey := entry.1, ReplaceAllowedIPs := true, AllowedIPs := entry.2 }
  | some existingPeer =>
    if !iputil.EqualIPNet entry.2 existingPeer.AllowedIPs then
      some { PublicKey := entry.1, ReplaceAllowedIPs := true, AllowedIPs := entry.2 }
    else none

/-- The entry that the second loop appends to `cfgPeers` for a map entry, if any. -/
def removeEntry (now : time.Time) (peerMap : Go.Map Key (List net.IPNet)) (entry : Key × Peer) :
    Option PeerConfig :=
  match peerMap.get entry.1 with
  | none => some { PublicKey := entry.1, Remove := true }
  | some _ => if needsReset now entry.2 then some { PublicKey := entry.1, Remove := true } else none

/-- The entry that the second loop appends to `resetPeers` for a map entry, if any. -/
def resetEntry (now : time.Time) (peerMap : Go.Map Key (List net.IPNet)) (entry : Key × Peer) :
    Option PeerConfig :=
  match peerMap.get entry.1 with
  | none => none
  | some _ => if needsReset now entry.2 then some (resetPeerCfg entry.1 entry.2) else none

/-- The entries of `cfgPeers` that carry key `k`, from what the roster map (`D`) and the
interface (`E`) hold at `k`. -/
def primaryAt (now : time.Time) (k : Key) (D : Option (List net.IPNet)) (E : Option Peer) :
    List PeerConfig :=
  (match D with
    | none => []
    | some v =>
      match E with
      | none => [{ PublicKey := k, ReplaceAllowedIPs := true, AllowedIPs := v }]
      | some p =>
        if !iputil.EqualIPNet v p.AllowedIPs then
          [{ PublicKey := k, ReplaceAllowedIPs := true, AllowedIPs := v }]
        else []) ++
  (match E with
    | none => []
    | some p =>
      match D with
      | none => [{ PublicKey := k, Remove := true }]
      | some _ => if needsReset now p then [{ PublicKey := k, Remove := true }] else [])

/-- The entries of `resetPeers` that carry key `k`. -/
def resetAt (now : time.Time) (k : Key) (D : Option (List net.IPNet)) (E : Option Peer) :
    List PeerConfig :=
  match E with
  | none => []
  | some p =>
    match D with
    | none => []
    | some _ => if needsReset now p then [resetPeerCfg k p] else []

/-- What an interface holds at key `k` once both batches are applied. -/
def finalAt (now : time.Time) (k : Key) (D : Option (List net.IPNet)) (E : Option Peer) :
    Option Peer :=
  (resetAt now k D E).foldl cvctrl.stepAt ((primaryAt now k D E).foldl cvctrl.stepAt E)

/-- The peers of an interface after both batches of a pass of `UpdatePeers`. -/
def passPeers (env : Env) (now : time.Time) (peerMap : Go.Map Key (List net.IPNet))
    (d : String) (ps : List Peer) : List Peer :=
  (batches env now peerMap d ps).2.foldl cvctrl.applyPeerConfig
    ((batches env now peerMap d ps).1.foldl cvctrl.applyPeerConfig ps)

end wireguard

namespace wireguard

/-- The world that consists of interfaces in state `i` only, nothing recorded yet. -/
def solo (i : cvctrl.Iface) : World := { kernel := fun _ => i }

/-- The pass of `UpdatePeers` over interface `d`, run on the state `i` of that interface
alone. -/
def passOn (env : Env) (now : time.Time) (peerMap : Go.Map cvtypes.Key (List net.IPNet))
    (d : String) (i : cvctrl.Iface) : World × Nat :=
  updateInterface env now peerMap (solo i, 0) d

/-- The calls that `s1` records beyond those of `s`. -/
def newCalls (s s1 : World) : List cvctrl.Call := s1.calls.drop s.calls.length

/-- The calls among `cs` that address interface `d`. -/
def callsOn (d : String) (cs : List cvctrl.Call) : List cvctrl.Call :=
  cs.filter (fun c => decide (c.name = d))

end wireguard

namespace wireguard

/-- The state of interface `d` after one pass of `UpdatePeers` over it. -/
def passIface (env : Env) (now : time.Time) (peerMap : Go.Map cvtypes.Key (List net.IPNet))
    (d : String) (i : cvctrl.Iface) : cvctrl.Iface :=
  (passOn env now peerMap d i).1.kernel d

/-- The calls of `n` successive passes over interface `d`, from its state `i`. -/
def passCalls (env : Env) (now : time.Time) (peerMap : Go.Map cvtypes.Key (List net.IPNet))
    (d : String) : Nat → cvctrl.Iface → List cvctrl.Call
  | 0, _ => []
  | n + 1, i =>
    (passOn env now peerMap d i).1.calls ++
      passCalls env now peerMap d n (passIface env now peerMap d i)

/-- The interfaces read by the `Device` calls among `cs`, in order. -/
def deviceReads (cs : List cvctrl.Call) : List String :=
  cs.filterMap (fun c =>
    match c with
    | cvctrl.Call.Device d _ => some d
    | cvctrl.Call.ConfigureDevice _ _ _ => none)

end wireguard

namespace wireguard

/-- The pair `[ipv4, ipv6]` that the roster `R` gives for key `k`: that of the last peer
of `R` that parses to `k`, `none` when no peer of `R` parses to `k`. Written from the
words of the spec (the roster is a mapping from key to peer, the last write wins). -/
def rosterPair (env : Env) (R : api.cavpnPeerList) (k : cvtypes.Key) : Option (List net.IPNet) :=
  R.foldl
    (fun found p =>
      match parsePeer env p with
      | none => found
      | some (key, ipv4, ipv6) => if key = k then some [ipv4, ipv6] else found)
    none

end wireguard

namespace wireguard

/-- The common shape of the loop bodies of `AddPeer` and `RemovePeer`: one
configuration call with `cfg` on interface `d`, its error logged. -/
def configureAndLog (cfg : cvtypes.Config) (s : World) (d : String) : World :=
  match cvctrl.ConfigureDevice s d cfg with
  | (false, s1) => s1.log ("error configuring cavpn interface " ++ d)
  | (true, s1) => s1

end wireguard

namespace wireguard

open cvtypes

/-- The batch of `AddPeer`. -/
def addConfig (k : Key) (ipv4 ipv6 : net.IPNet) : Config :=
  { Peers := [{ PublicKey := k, ReplaceAllowedIPs := true, AllowedIPs := [ipv4, ipv6] }] }

/-- The batch of `RemovePeer`. -/
def removeConfig (k : Key) : Config := { Peers := [{ PublicKey := k, Remove := true }] }

/-- The peer that `AddPeer` creates on an interface that does not hold its key. -/
def addedPeer (k : Key) (ipv4 ipv6 : net.IPNet) : Peer :=
  { PublicKey := k, PresharedKey := emptyKey, AllowedIPs := [ipv4, ipv6], LastHandshakeTime := 0 }

end wireguard

/-! ## Lemmas on Go maps -/

namespace Go

theorem Map.get_set {κ ν : Type} [DecidableEq κ] (m : Map κ ν) (k k' : κ) (v : ν) :
    (m.set k v).get k' = if k = k' then some v else m.get k' := by
  induction m with
  | nil => simp [Map.set, Map.get]
  | cons e rest ih =>
    obtain ⟨a, b⟩ := e
    by_cases h : a = k
    · subst h
      by_cases h2 : a = k' <;> simp [Map.set, Map.get, h2]
    · by_cases h2 : a = k'
      · subst h2
        have h3 : ¬ k = a := fun e => h e.symm
        simp [Map.set, Map.get, h, h3]
      · simp [Map.set, Map.get, h, h2, ih]

theorem Map.mem_keys_set {κ ν : Type} [DecidableEq κ] (m : Map κ ν) (k k' : κ) (v : ν) :
    k' ∈ (m.set k v).keys ↔ k' = k ∨ k' ∈ m.keys := by
  induction m with
  | nil => simp [Map.set, Map.keys]
  | cons e rest ih =>
    obtain ⟨a, b⟩ := e
    by_cases h : a = k
    · subst h
      simp [Map.set, Map.keys]
    · have ih2 : k' ∈ List.map Prod.fst (Map.set rest k v) ↔
          k' = k ∨ k' ∈ List.map Prod.fst rest := ih
      simp only [Map.set, Map.keys, h, if_false, List.map_cons, List.mem_cons, ih2]
      tauto

theorem Map.nodup_keys_set {κ ν : Type} [DecidableEq κ] (m : Map κ ν) (k : κ) (v : ν)
    (h : m.keys.Nodup) : (m.set k v).keys.Nodup := by
  induction m with
  | nil => simp [Map.set, Map.keys]
  | cons e rest ih =>
    obtain ⟨a, b⟩ := e
    have hcons : a ∉ Map.keys rest ∧ (Map.keys rest).Nodup := by
      simpa [Map.keys] using h
    by_cases hk : a = k
    · subst hk
      simpa [Map.set, Map.keys] using h
    · have h1 : a ∉ (Map.set rest k v).keys := by
        rw [Map.mem_keys_set]
        rintro (h2 | h2)
        · exact hk h2
        · exact hcons.1 h2
      have h3 := ih hcons.2
      simp only [Map.set, hk, if_false]
      exact List.nodup_cons.mpr ⟨h1, h3⟩

theorem Map.get_eq_none_iff {κ ν : Type} [DecidableEq κ] (m : Map κ ν) (k : κ) :
    m.get k = none ↔ k ∉ m.keys := by
  induction m with
  | nil => simp [Map.get, Map.keys]
  | cons e rest ih =>
    obtain ⟨a, b⟩ := e
    have ih2 : Map.get rest k = none ↔ k ∉ List.map Prod.fst rest := ih
    by_cases h : a = k
    · subst h
      simp [Map.get, Map.keys]
    · have h2 : ¬ k = a := fun e => h e.symm
      simp [Map.get, Map.keys, h, h2, ih2]

theorem Map.get_eq_some_iff {κ ν : Type} [DecidableEq κ] (m : Map κ ν) (k : κ) (v : ν)
    (h : m.keys.Nodup) : m.get k = some v ↔ (k, v) ∈ m := by
  induction m with
  | nil => simp [Map.get]
  | cons e rest ih =>
    obtain ⟨a, b⟩ := e
    have hcons : a ∉ Map.keys rest ∧ (Map.keys rest).Nodup := by
      simpa [Map.keys] using h
    by_cases hk : a = k
    · subst hk
      have hnot : (a, v) ∉ rest := fun hm =>
        hcons.1 (List.mem_map.mpr ⟨(a, v), hm, rfl⟩)
      simp only [Map.get, if_true, Option.some.injEq, List.mem_cons, Prod.mk.injEq, true_and]
      constructor
      · intro e; exact Or.inl e.symm
      · rintro (e | e)
        · exact e.symm
        · exact absurd e hnot
    · have h2 : ¬ k = a := fun e => hk e.symm
      simp [Map.get, hk, h2, ih hcons.2]

theorem Map.get_perm {κ ν : Type} [DecidableEq κ] (l m : Map κ ν) (hp : l.Perm m)
    (h : m.keys.Nodup) (k : κ) : l.get k = m.get k := by
  have hl : l.keys.Nodup := ((hp.map Prod.fst).nodup_iff).mpr h
  cases hm : m.get k with
  | none =>
    rw [Map.get_eq_none_iff] at hm ⊢
    intro hk
    exact hm ((hp.map Prod.fst).mem_iff.mp hk)
  | some v =>
    rw [Map.get_eq_some_iff _ _ _ h] at hm
    rw [Map.get_eq_some_iff _ _ _ hl]
    exact hp.mem_iff.mpr hm

theorem Map.nodup_keys_perm {κ ν : Type} (l m : Map κ ν) (hp : l.Perm m)
    (h : m.keys.Nodup) : l.keys.Nodup :=
  ((hp.map Prod.fst).nodup_iff).mpr h

end Go

/-! ## Lemmas on the kernel model -/

namespace cvctrl

open cvtypes

theorem peerAt_some {ps : List Peer} {k : Key} {p : Peer} (h : peerAt ps k = some p) :
    p.PublicKey = k ∧ p ∈ ps := by
  unfold peerAt at h
  exact ⟨by simpa using List.find?_some h, List.mem_of_find?_eq_some h⟩

theorem peerAt_eq_none_iff (ps : List Peer) (k : Key) :
    peerAt ps k = none ↔ k ∉ keysOf ps := by
  unfold peerAt keysOf
  rw [List.find?_eq_none]
  simp only [decide_eq_true_eq, List.mem_map, not_exists, not_and]

theorem mem_keysOf_iff (ps : List Peer) (k : Key) :
    k ∈ keysOf ps ↔ ∃ p, peerAt ps k = some p := by
  cases h : peerAt ps k with
  | none =>
    have := (peerAt_eq_none_iff ps k).mp h
    simp [this]
  | some p =>
    have hp := peerAt_some h
    simp only [Option.some.injEq, exists_eq', iff_true]
    exact List.mem_map.mpr ⟨p, hp.2, hp.1⟩

theorem peerAt_of_mem {ps : List Peer} {p : Peer} (hn : (keysOf ps).Nodup) (hp : p ∈ ps) :
    peerAt ps p.PublicKey = some p := by
  induction ps with
  | nil => simp at hp
  | cons q rest ih =>
    have hcons : q.PublicKey ∉ keysOf rest ∧ (keysOf rest).Nodup := by
      simpa [keysOf] using hn
    rcases List.mem_cons.mp hp with h | h
    · subst h
      simp [peerAt]
    · have hne : q.PublicKey ≠ p.PublicKey := by
        intro e
        exact hcons.1 (e ▸ List.mem_map.mpr ⟨p, h, rfl⟩)
      have := ih hcons.2 h
      simpa [peerAt, List.find?_cons, hne] using this

theorem updatePeer_PublicKey (c : PeerConfig) (p : Peer) :
    (updatePeer c p).PublicKey = p.PublicKey := rfl

theorem find_congr_on {α : Type} (p q : α → Bool) (l : List α)
    (h : ∀ x ∈ l, p x = q x) : l.find? p = l.find? q := by
  induction l with
  | nil => rfl
  | cons a rest ih =>
    have ha : p a = q a := h a (List.mem_cons_self a rest)
    have hrest : ∀ x ∈ rest, p x = q x := fun x hx => h x (List.mem_cons_of_mem a hx)
    simp [List.find?_cons, ha, ih hrest]

theorem peerAt_remove (ps : List Peer) (c k : Key) :
    peerAt (ps.filter (fun p => decide (p.PublicKey ≠ c))) k =
      if c = k then none else peerAt ps k := by
  unfold peerAt
  rw [List.find?_filter]
  by_cases hk : c = k
  · subst hk
    rw [if_pos rfl, List.find?_eq_none]
    intro x _
    simp
  · rw [if_neg hk]
    apply find_congr_on
    intro x _
    by_cases hx : x.PublicKey = k
    · have : ¬ x.PublicKey = c := fun e => hk (e.symm.trans hx)
      simp [hx, this, hk]
      exact fun e => hk e.symm
    · simp [hx]

theorem peerAt_map_update (ps : List Peer) (c : PeerConfig) (k : Key) :
    peerAt (ps.map (fun p => if p.PublicKey = c.PublicKey then updatePeer c p else p)) k =
      (peerAt ps k).map (fun p => if p.PublicKey = c.PublicKey then updatePeer c p else p) := by
  unfold peerAt
  rw [List.find?_map]
  congr 1
  apply find_congr_on
  intro x _
  by_cases hx : x.PublicKey = c.PublicKey
  · simp [hx, updatePeer_PublicKey]
  · simp [hx]

theorem peerAt_applyPeerConfig (ps : List Peer) (c : PeerConfig) (k : Key) :
    peerAt (applyPeerConfig ps c) k =
      if c.PublicKey = k then stepAt (peerAt ps k) c else peerAt ps k := by
  by_cases hr : c.Remove = true
  · simp only [applyPeerConfig, hr, if_true, stepAt]
    exact peerAt_remove ps c.PublicKey k
  · have hr2 : c.Remove = false := by simpa using hr
    by_cases hany : ps.any (fun p => decide (p.PublicKey = c.PublicKey)) = true
    · simp only [applyPeerConfig, hr2, hany, if_true, stepAt, Bool.false_eq_true, if_false]
      rw [peerAt_map_update]
      cases hp : peerAt ps k with
      | none =>
        by_cases hk : c.PublicKey = k
        · exfalso
          obtain ⟨x, hx, hxk⟩ := List.any_eq_true.mp hany
          have hx2 : x.PublicKey = k := (by simpa using hxk : x.PublicKey = c.PublicKey).trans hk
          have := (peerAt_eq_none_iff ps k).mp hp
          exact this (List.mem_map.mpr ⟨x, hx, hx2⟩)
        · simp [hk]
      | some p =>
        have hpk := (peerAt_some hp).1
        by_cases hk : c.PublicKey = k
        · have : p.PublicKey = c.PublicKey := hpk.trans hk.symm
          simp [hk, this, hpk]
        · have : ¬ p.PublicKey = c.PublicKey := fun e => hk (e.symm.trans hpk)
          simp [hk, this]
    · have hnone : peerAt ps c.PublicKey = none := by
        unfold peerAt
        rw [List.find?_eq_none]
        intro x hx hxk
        exact hany (List.any_eq_true.mpr ⟨x, hx, hxk⟩)
      simp only [applyPeerConfig, hr2, hany, if_false, stepAt, Bool.false_eq_true]
      unfold peerAt at hnone ⊢
      rw [List.find?_append]
      by_cases hk : c.PublicKey = k
      · subst hk
        simp [hnone, newPeer]
      · simp [hk, newPeer, List.find?_cons]

theorem nodup_applyPeerConfig (ps : List Peer) (c : PeerConfig) (h : (keysOf ps).Nodup) :
    (keysOf (applyPeerConfig ps c)).Nodup := by
  by_cases hr : c.Remove = true
  · simp only [applyPeerConfig, hr, if_true]
    exact List.Nodup.sublist (List.Sublist.map _ (List.filter_sublist ps)) h
  · have hr2 : c.Remove = false := by simpa using hr
    by_cases hany : ps.any (fun p => decide (p.PublicKey = c.PublicKey)) = true
    · simp only [applyPeerConfig, hr2, hany, if_true, Bool.false_eq_true, if_false]
      have : keysOf (ps.map (fun p => if p.PublicKey = c.PublicKey then updatePeer c p else p))
          = keysOf ps := by
        unfold keysOf
        rw [List.map_map]
        apply List.map_congr_left
        intro x _
        by_cases hx : x.PublicKey = c.PublicKey <;> simp [hx, updatePeer_PublicKey]
      rw [this]
      exact h
    · simp only [applyPeerConfig, hr2, hany, if_false, Bool.false_eq_true]
      have hnot : c.PublicKey ∉ keysOf ps := by
        intro hm
        obtain ⟨x, hx, hxk⟩ := List.mem_map.mp hm
        exact hany (List.any_eq_true.mpr ⟨x, hx, by simpa using hxk⟩)
      unfold keysOf at h hnot ⊢
      rw [List.map_append, List.nodup_append]
      refine ⟨h, by simp, ?_⟩
      intro a ha hb
      simp only [List.map_cons, List.map_nil, List.mem_singleton] at hb
      subst hb
      exact hnot ha

theorem peerAt_foldl (batch : List PeerConfig) (ps : List Peer) (k : Key) :
    peerAt (batch.foldl applyPeerConfig ps) k =
      (batch.filter (fun c => decide (c.PublicKey = k))).foldl stepAt (peerAt ps k) := by
  induction batch generalizing ps with
  | nil => rfl
  | cons c rest ih =>
    rw [List.foldl_cons, ih, peerAt_applyPeerConfig]
    by_cases hk : c.PublicKey = k
    · simp [List.filter_cons, hk]
    · simp [List.filter_cons, hk]

theorem nodup_foldl (batch : List PeerConfig) (ps : List Peer) (h : (keysOf ps).Nodup) :
    (keysOf (batch.foldl applyPeerConfig ps)).Nodup := by
  induction batch generalizing ps with
  | nil => exact h
  | cons c rest ih => exact ih _ (nodup_applyPeerConfig ps c h)

end cvctrl

/-! ## Lemmas on the maps and batches of `UpdatePeers` -/

namespace wireguard

open cvtypes cvctrl

theorem get_mapPeersStep (env : Env) (m : Go.Map Key (List net.IPNet)) (p : api.cavpnPeer)
    (k : Key) :
    (mapPeersStep env m p).get k =
      match parsePeer env p with
      | none => m.get k
      | some (key, ipv4, ipv6) => if key = k then some [ipv4, ipv6] else m.get k := by
  unfold mapPeersStep
  cases h : parsePeer env p with
  | none => rfl
  | some r =>
    obtain ⟨key, ipv4, ipv6⟩ := r
    simp only [Go.Map.get_set]

theorem nodup_mapPeersStep (env : Env) (m : Go.Map Key (List net.IPNet)) (p : api.cavpnPeer)
    (h : m.keys.Nodup) : (mapPeersStep env m p).keys.Nodup := by
  unfold mapPeersStep
  cases hp : parsePeer env p with
  | none => exact h
  | some r =>
    obtain ⟨key, ipv4, ipv6⟩ := r
    exact Go.Map.nodup_keys_set m key _ h

theorem nodup_foldl_mapPeersStep (env : Env) (peers : api.cavpnPeerList)
    (m : Go.Map Key (List net.IPNet)) (h : m.keys.Nodup) :
    (peers.foldl (mapPeersStep env) m).keys.Nodup := by
  induction peers generalizing m with
  | nil => exact h
  | cons p rest ih => exact ih _ (nodup_mapPeersStep env m p h)

theorem nodup_mapPeers (env : Env) (peers : api.cavpnPeerList) :
    (mapPeers env peers).keys.Nodup :=
  nodup_foldl_mapPeersStep env peers [] (by simp [Go.Map.keys])

/-- A key is in the roster map exactly when some roster peer parses to it. -/
theorem get_foldl_mapPeersStep_isSome (env : Env) (peers : api.cavpnPeerList)
    (m : Go.Map Key (List net.IPNet)) (k : Key) :
    (∃ v, (peers.foldl (mapPeersStep env) m).get k = some v) ↔
      (∃ v, m.get k = some v) ∨
        ∃ p ∈ peers, ∃ ipv4 ipv6, parsePeer env p = some (k, ipv4, ipv6) := by
  induction peers generalizing m with
  | nil => simp
  | cons p rest ih =>
    rw [List.foldl_cons, ih, get_mapPeersStep]
    cases hp : parsePeer env p with
    | none => simp [hp]
    | some r =>
      obtain ⟨key, ipv4, ipv6⟩ := r
      by_cases hk : key = k
      · subst hk
        simp [hp]
      · simp only [hk, if_false, List.mem_cons, exists_eq_or_imp, hp, Option.some.injEq,
          Prod.mk.injEq, false_and, exists_false, false_or]

theorem mapPeers_get_isSome (env : Env) (peers : api.cavpnPeerList) (k : Key) :
    (∃ v, (mapPeers env peers).get k = some v) ↔
      ∃ p ∈ peers, ∃ ipv4 ipv6, parsePeer env p = some (k, ipv4, ipv6) := by
  unfold mapPeers
  rw [get_foldl_mapPeersStep_isSome]
  simp [Go.Map.get]

/-- Roster peers that do not parse to `k` leave the entry of `k` alone. -/
theorem get_foldl_mapPeersStep_of_not_key (env : Env) (peers : api.cavpnPeerList)
    (m : Go.Map Key (List net.IPNet)) (k : Key)
    (h : ∀ q ∈ peers, ∀ ipv4 ipv6, parsePeer env q ≠ some (k, ipv4, ipv6)) :
    (peers.foldl (mapPeersStep env) m).get k = m.get k := by
  induction peers generalizing m with
  | nil => rfl
  | cons p rest ih =>
    rw [List.foldl_cons, ih _ (fun q hq => h q (List.mem_cons_of_mem p hq)), get_mapPeersStep]
    cases hp : parsePeer env p with
    | none => rfl
    | some r =>
      obtain ⟨key, ipv4, ipv6⟩ := r
      have : key ≠ k := by
        intro e
        subst e
        exact h p (List.mem_cons_self p rest) ipv4 ipv6 hp
      simp [this]

/-- The roster map holds at `k` the pair of the last roster peer that parses to `k`. -/
theorem mapPeers_get_last (env : Env) (before after : api.cavpnPeerList) (p : api.cavpnPeer)
    (k : Key) (ipv4 ipv6 : net.IPNet) (hp : parsePeer env p = some (k, ipv4, ipv6))
    (hlast : ∀ q ∈ after, ∀ a b, parsePeer env q ≠ some (k, a, b)) :
    (mapPeers env (before ++ p :: after)).get k = some [ipv4, ipv6] := by
  unfold mapPeers
  rw [List.foldl_append, List.foldl_cons, get_foldl_mapPeersStep_of_not_key env after _ k hlast,
    get_mapPeersStep, hp]
  simp

theorem get_foldl_existing (ps : List Peer) (m : Go.Map Key Peer) (k : Key)
    (h : (keysOf ps).Nodup) :
    (ps.foldl (fun peerMap peer => peerMap.set peer.PublicKey peer) m).get k =
      match peerAt ps k with
      | some p => some p
      | none => m.get k := by
  induction ps generalizing m with
  | nil => rfl
  | cons q rest ih =>
    have hcons : q.PublicKey ∉ keysOf rest ∧ (keysOf rest).Nodup := by
      simpa [keysOf] using h
    rw [List.foldl_cons, ih _ hcons.2, Go.Map.get_set]
    by_cases hk : q.PublicKey = k
    · subst hk
      have hnone := (peerAt_eq_none_iff rest q.PublicKey).mpr hcons.1
      have hq : peerAt (q :: rest) q.PublicKey = some q := by simp [peerAt]
      rw [hnone, hq]
      simp
    · have : peerAt (q :: rest) k = peerAt rest k := by
        simp [peerAt, List.find?_cons, hk]
      rw [this]
      simp [hk]

theorem get_mapExistingPeers (ps : List Peer) (k : Key) (h : (keysOf ps).Nodup) :
    (mapExistingPeers ps).get k = peerAt ps k := by
  unfold mapExistingPeers
  rw [get_foldl_existing ps [] k h]
  cases peerAt ps k <;> simp [Go.Map.get]

theorem nodup_mapExistingPeers (ps : List Peer) : (mapExistingPeers ps).keys.Nodup := by
  unfold mapExistingPeers
  have : ∀ (m : Go.Map Key Peer), m.keys.Nodup →
      (ps.foldl (fun peerMap peer => peerMap.set peer.PublicKey peer) m).keys.Nodup := by
    induction ps with
    | nil => exact fun m hm => hm
    | cons q rest ih => exact fun m hm => ih _ (Go.Map.nodup_keys_set m _ _ hm)
  exact this [] (by simp [Go.Map.keys])

theorem foldl_desiredStep (E : Go.Map Key Peer) (l : List (Key × List net.IPNet))
    (acc : List PeerConfig) :
    l.foldl (desiredStep E) acc = acc ++ l.filterMap (desiredEntry E) := by
  induction l generalizing acc with
  | nil => simp
  | cons e rest ih =>
    rw [List.foldl_cons, ih]
    unfold desiredStep desiredEntry
    cases hE : E.get e.1 with
    | none => simp [List.filterMap_cons, hE]
    | some p =>
      by_cases heq : iputil.EqualIPNet e.2 p.AllowedIPs = true
      · simp [List.filterMap_cons, hE, heq]
      · simp [List.filterMap_cons, hE, heq]

theorem foldl_existingStep (now : time.Time) (D : Go.Map Key (List net.IPNet))
    (l : List (Key × Peer)) (acc : List PeerConfig × List PeerConfig) :
    l.foldl (existingStep now D) acc =
      (acc.1 ++ l.filterMap (removeEntry now D), acc.2 ++ l.filterMap (resetEntry now D)) := by
  induction l generalizing acc with
  | nil => simp
  | cons e rest ih =>
    rw [List.foldl_cons, ih]
    unfold existingStep removeEntry resetEntry
    cases hD : D.get e.1 with
    | none => simp [List.filterMap_cons, hD]
    | some v =>
      by_cases hr : needsReset now e.2 = true
      · simp [List.filterMap_cons, hD, hr]
      · simp [List.filterMap_cons, hD, hr]

theorem batches_eq (env : Env) (now : time.Time) (D : Go.Map Key (List net.IPNet))
    (d : String) (ps : List Peer) :
    batches env now D d ps =
      ((env.rangePeerMap d D).filterMap (desiredEntry (mapExistingPeers ps)) ++
          (env.rangeExisting d (mapExistingPeers ps)).filterMap (removeEntry now D),
        (env.rangeExisting d (mapExistingPeers ps)).filterMap (resetEntry now D)) := by
  unfold batches
  simp only [foldl_desiredStep, foldl_existingStep, List.nil_append]

end wireguard

namespace wireguard

open cvtypes cvctrl

/-- The entries with key `k` of a batch built from a map, one entry per key at most. -/
theorem filter_filterMap_key {ν : Type} (l : Go.Map Key ν) (f : Key × ν → Option PeerConfig)
    (k : Key) (hf : ∀ e c, f e = some c → c.PublicKey = e.1) (h : l.keys.Nodup) :
    (l.filterMap f).filter (fun c => decide (c.PublicKey = k)) =
      match l.get k with
      | none => []
      | some v => (f (k, v)).toList := by
  induction l with
  | nil => simp [Go.Map.get]
  | cons e rest ih =>
    obtain ⟨a, b⟩ := e
    have hcons : a ∉ Go.Map.keys rest ∧ (Go.Map.keys rest).Nodup := by
      simpa [Go.Map.keys] using h
    have ih2 := ih hcons.2
    by_cases hk : a = k
    · subst hk
      have hnone : Go.Map.get rest a = none := (Go.Map.get_eq_none_iff rest a).mpr hcons.1
      rw [hnone] at ih2
      cases hfe : f (a, b) with
      | none => simp [List.filterMap_cons, hfe, ih2, Go.Map.get]
      | some c =>
        have hc : c.PublicKey = a := hf (a, b) c hfe
        simp [List.filterMap_cons, hfe, ih2, Go.Map.get, List.filter_cons, hc]
    · cases hfe : f (a, b) with
      | none => simp [List.filterMap_cons, hfe, ih2, Go.Map.get, hk]
      | some c =>
        have hc : c.PublicKey = a := hf (a, b) c hfe
        simp [List.filterMap_cons, hfe, ih2, Go.Map.get, List.filter_cons, hc, hk]

theorem desiredEntry_key (E : Go.Map Key Peer) (e : Key × List net.IPNet) (c : PeerConfig)
    (h : desiredEntry E e = some c) : c.PublicKey = e.1 := by
  unfold desiredEntry at h
  cases hE : E.get e.1 with
  | none =>
    rw [hE] at h
    simp only [Option.some.injEq] at h
    rw [← h]
  | some p =>
    rw [hE] at h
    by_cases heq : iputil.EqualIPNet e.2 p.AllowedIPs = true
    · simp [heq] at h
    · simp only [heq, Bool.not_false, if_true, Option.some.injEq, Bool.false_eq_true] at h
      rw [← h]

theorem removeEntry_key (now : time.Time) (D : Go.Map Key (List net.IPNet)) (e : Key × Peer)
    (c : PeerConfig) (h : removeEntry now D e = some c) : c.PublicKey = e.1 := by
  unfold removeEntry at h
  cases hD : D.get e.1 with
  | none =>
    rw [hD] at h
    simp only [Option.some.injEq] at h
    rw [← h]
  | some v =>
    rw [hD] at h
    by_cases hr : needsReset now e.2 = true
    · simp only [hr, if_true, Option.some.injEq] at h
      rw [← h]
    · simp [hr] at h

theorem resetPeerCfg_PublicKey (k : Key) (p : Peer) : (resetPeerCfg k p).PublicKey = k := by
  unfold resetPeerCfg
  by_cases h : p.PresharedKey = emptyKey <;> simp [h]

theorem resetPeerCfg_Remove (k : Key) (p : Peer) : (resetPeerCfg k p).Remove = false := by
  unfold resetPeerCfg
  by_cases h : p.PresharedKey = emptyKey <;> simp [h]

theorem resetEntry_key (now : time.Time) (D : Go.Map Key (List net.IPNet)) (e : Key × Peer)
    (c : PeerConfig) (h : resetEntry now D e = some c) : c.PublicKey = e.1 := by
  unfold resetEntry at h
  cases hD : D.get e.1 with
  | none =>
    rw [hD] at h
    simp at h
  | some v =>
    rw [hD] at h
    by_cases hr : needsReset now e.2 = true
    · simp only [hr, if_true, Option.some.injEq] at h
      rw [← h]
      exact resetPeerCfg_PublicKey _ _
    · simp [hr] at h

/-- The entries of `cfgPeers` that carry key `k`. -/
theorem cfgPeers_at (env : Env) (now : time.Time) (D : Go.Map Key (List net.IPNet))
    (d : String) (ps : List Peer) (k : Key) (hD : D.keys.Nodup) (hps : (keysOf ps).Nodup) :
    (batches env now D d ps).1.filter (fun c => decide (c.PublicKey = k)) =
      primaryAt now k (D.get k) (peerAt ps k) := by
  have hE := nodup_mapExistingPeers ps
  have hgetE := get_mapExistingPeers ps k hps
  rw [batches_eq, List.filter_append,
    filter_filterMap_key _ _ k (desiredEntry_key _)
      (Go.Map.nodup_keys_perm _ _ (env.rangePeerMap_perm d D) hD),
    filter_filterMap_key _ _ k (removeEntry_key now D)
      (Go.Map.nodup_keys_perm _ _ (env.rangeExisting_perm d _) hE),
    Go.Map.get_perm _ _ (env.rangePeerMap_perm d D) hD,
    Go.Map.get_perm _ _ (env.rangeExisting_perm d _) hE, hgetE]
  unfold primaryAt desiredEntry removeEntry
  cases hDk : D.get k with
  | none =>
    cases hEk : peerAt ps k with
    | none => simp
    | some p => simp [hDk]
  | some v =>
    cases hEk : peerAt ps k with
    | none => simp [hgetE, hEk]
    | some p =>
      by_cases heq : iputil.EqualIPNet v p.AllowedIPs = true <;>
        by_cases hr : needsReset now p = true <;> simp [hgetE, hEk, hDk, heq, hr]

/-- The entries of `resetPeers` that carry key `k`. -/
theorem resetPeers_at (env : Env) (now : time.Time) (D : Go.Map Key (List net.IPNet))
    (d : String) (ps : List Peer) (k : Key) (hps : (keysOf ps).Nodup) :
    (batches env now D d ps).2.filter (fun c => decide (c.PublicKey = k)) =
      resetAt now k (D.get k) (peerAt ps k) := by
  have hE := nodup_mapExistingPeers ps
  have hgetE := get_mapExistingPeers ps k hps
  rw [batches_eq,
    filter_filterMap_key _ _ k (resetEntry_key now D)
      (Go.Map.nodup_keys_perm _ _ (env.rangeExisting_perm d _) hE),
    Go.Map.get_perm _ _ (env.rangeExisting_perm d _) hE, hgetE]
  unfold resetAt resetEntry
  cases hDk : D.get k with
  | none =>
    cases hEk : peerAt ps k with
    | none => simp
    | some p => simp [hDk]
  | some v =>
    cases hEk : peerAt ps k with
    | none => simp
    | some p =>
      by_cases hr : needsReset now p = true <;> simp [hDk, hr]

/-- What an interface holds at `k` after both batches, from what it held before. -/
theorem peerAt_passPeers (env : Env) (now : time.Time) (D : Go.Map Key (List net.IPNet))
    (d : String) (ps : List Peer) (k : Key) (hD : D.keys.Nodup) (hps : (keysOf ps).Nodup) :
    peerAt (passPeers env now D d ps) k = finalAt now k (D.get k) (peerAt ps k) := by
  unfold passPeers finalAt
  rw [peerAt_foldl, peerAt_foldl, cfgPeers_at env now D d ps k hD hps,
    resetPeers_at env now D d ps k hps]

theorem nodup_passPeers (env : Env) (now : time.Time) (D : Go.Map Key (List net.IPNet))
    (d : String) (ps : List Peer) (hps : (keysOf ps).Nodup) :
    (keysOf (passPeers env now D d ps)).Nodup := by
  unfold passPeers
  exact nodup_foldl _ _ (nodup_foldl _ _ hps)

/-- The reset batch is empty when `cfgPeers` is. -/
theorem resetPeers_nil_of_cfgPeers_nil (env : Env) (now : time.Time)
    (D : Go.Map Key (List net.IPNet)) (d : String) (ps : List Peer)
    (h : (batches env now D d ps).1 = []) : (batches env now D d ps).2 = [] := by
  rw [batches_eq] at h ⊢
  simp only [List.append_eq_nil] at h
  have h2 := h.2
  rw [List.filterMap_eq_nil_iff] at h2 ⊢
  intro e he
  have h3 := h2 e he
  unfold removeEntry at h3
  unfold resetEntry
  cases hD : D.get e.1 with
  | none => rfl
  | some v =>
    rw [hD] at h3
    by_cases hr : needsReset now e.2 = true
    · simp [hr] at h3
    · simp [hr]

end wireguard

/-! ## A pass of `UpdatePeers` touches one interface -/

namespace wireguard

open cvtypes cvctrl

/-- A pass over `d` reads and writes the state of `d` only: its effect on any world is
its effect on the state of `d` alone, put back in place. -/
theorem updateInterface_frame (env : Env) (now : time.Time) (D : Go.Map Key (List net.IPNet))
    (s : World) (c : Nat) (d : String) :
    updateInterface env now D (s, c) d =
      ({ kernel := Function.update s.kernel d ((passOn env now D d (s.kernel d)).1.kernel d)
         calls := s.calls ++ (passOn env now D d (s.kernel d)).1.calls
         logs := s.logs ++ (passOn env now D d (s.kernel d)).1.logs
         metrics := s.metrics },
        c + (passOn env now D d (s.kernel d)).2) := by
  unfold passOn updateInterface
  by_cases hr : (s.kernel d).readFails = true
  · simp [Device, solo, hr, World.log]
  · have hr2 : (s.kernel d).readFails = false := by simpa using hr
    by_cases h1 : (batches env now D d (s.kernel d).peers).1.length = 0
    · simp [Device, solo, hr2, h1, World.log]
    · cases hc1 : ((s.kernel d).configure
          { Peers := (batches env now D d (s.kernel d).peers).1 }).1 with
      | false =>
        simp [Device, ConfigureDevice, solo, hr2, h1, hc1, World.log]
      | true =>
        by_cases h2 : (batches env now D d (s.kernel d).peers).2.length = 0
        · simp [Device, ConfigureDevice, solo, hr2, h1, hc1, h2, World.log]
        · cases hc2 : (((s.kernel d).configure
              { Peers := (batches env now D d (s.kernel d).peers).1 }).2.configure
                { Peers := (batches env now D d (s.kernel d).peers).2 }).1 with
          | false =>
            simp [Device, ConfigureDevice, solo, hr2, h1, hc1, h2, hc2, World.log]
          | true =>
            simp [Device, ConfigureDevice, solo, hr2, h1, hc1, h2, hc2, World.log]

end wireguard

namespace wireguard

open cvtypes cvctrl

/-- The pass over an interface that never fails: both batches are applied. -/
theorem passOn_healthy (env : Env) (now : time.Time) (D : Go.Map Key (List net.IPNet))
    (d : String) (i : Iface) (h : i.healthy) :
    passIface env now D d i = { i with peers := passPeers env now D d i.peers } ∧
      (passOn env now D d i).1.calls =
        Call.Device d true ::
          (if (batches env now D d i.peers).1.length = 0 then []
           else Call.ConfigureDevice d { Peers := (batches env now D d i.peers).1 } true ::
             (if (batches env now D d i.peers).2.length = 0 then []
              else [Call.ConfigureDevice d { Peers := (batches env now D d i.peers).2 } true])) := by
  obtain ⟨ps, rf, cf⟩ := i
  obtain ⟨hr, hc⟩ := h
  simp only at hr hc
  subst hr hc
  unfold passIface passOn updateInterface passPeers
  by_cases h1 : (batches env now D d ps).1.length = 0
  · have e1 : (batches env now D d ps).1 = [] := List.length_eq_zero.mp h1
    have e2 := resetPeers_nil_of_cfgPeers_nil env now D d ps e1
    simp [Device, solo, h1, e1, e2]
  · by_cases h2 : (batches env now D d ps).2.length = 0
    · have e2 : (batches env now D d ps).2 = [] := List.length_eq_zero.mp h2
      simp [Device, ConfigureDevice, solo, h1, h2, e2, Iface.configure, applyConfig]
    · simp [Device, ConfigureDevice, solo, h1, h2, Iface.configure, applyConfig]

/-- Every call of a pass over `d` addresses `d`, and exactly one of them is a read. -/
theorem passOn_calls (env : Env) (now : time.Time) (D : Go.Map Key (List net.IPNet))
    (d : String) (i : Iface) :
    (∀ c ∈ (passOn env now D d i).1.calls, c.name = d) ∧
      deviceReads (passOn env now D d i).1.calls = [d] := by
  unfold passOn updateInterface
  by_cases hr : i.readFails = true
  · simp [Device, solo, hr, World.log, Call.name, deviceReads]
  · have hr2 : i.readFails = false := by simpa using hr
    by_cases h1 : (batches env now D d i.peers).1.length = 0
    · simp [Device, solo, hr2, h1, World.log, Call.name, deviceReads]
    · cases hc1 : (i.configure { Peers := (batches env now D d i.peers).1 }).1 with
      | false =>
        simp [Device, ConfigureDevice, solo, hr2, h1, hc1, World.log, Call.name, deviceReads]
      | true =>
        by_cases h2 : (batches env now D d i.peers).2.length = 0
        · simp [Device, ConfigureDevice, solo, hr2, h1, hc1, h2, World.log, Call.name,
            deviceReads]
        · cases hc2 : ((i.configure { Peers := (batches env now D d i.peers).1 }).2.configure
                { Peers := (batches env now D d i.peers).2 }).1 with
          | false =>
            simp [Device, ConfigureDevice, solo, hr2, h1, hc1, h2, hc2, World.log, Call.name,
              deviceReads]
          | true =>
            simp [Device, ConfigureDevice, solo, hr2, h1, hc1, h2, hc2, World.log, Call.name,
              deviceReads]

/-- A pass whose `cfgPeers` is empty reads the device and does nothing else. -/
theorem passOn_of_cfgPeers_nil (env : Env) (now : time.Time) (D : Go.Map Key (List net.IPNet))
    (d : String) (i : Iface) (h : (batches env now D d i.peers).1 = []) :
    passIface env now D d i = i ∧
      (passOn env now D d i).1.calls = [Call.Device d (!i.readFails)] := by
  unfold passIface passOn updateInterface
  by_cases hr : i.readFails = true
  · simp [Device, solo, hr, World.log]
  · have hr2 : i.readFails = false := by simpa using hr
    simp [Device, solo, hr2, h]

/-- The state of interface `I` after the loop over the interfaces `ds`: one pass per
occurrence of `I` in `ds`. -/
theorem kernel_foldl_updateInterface (env : Env) (now : time.Time)
    (D : Go.Map Key (List net.IPNet)) (ds : List String) (s : World) (c : Nat) (I : String) :
    (ds.foldl (updateInterface env now D) (s, c)).1.kernel I =
      (passIface env now D I)^[ds.count I] (s.kernel I) := by
  induction ds generalizing s c with
  | nil => rfl
  | cons d rest ih =>
    rw [List.foldl_cons, updateInterface_frame, ih]
    by_cases hd : d = I
    · subst hd
      simp [passIface, Function.iterate_succ_apply]
    · have hne : I ≠ d := fun e => hd e.symm
      simp [hd, hne, Function.update_noteq hne]

/-- The calls that the loop over the interfaces `ds` adds to the record. -/
theorem calls_foldl_updateInterface (env : Env) (now : time.Time)
    (D : Go.Map Key (List net.IPNet)) (ds : List String) (s : World) (c : Nat) :
    ∃ cs, (ds.foldl (updateInterface env now D) (s, c)).1.calls = s.calls ++ cs ∧
      deviceReads cs = ds ∧
      ∀ I, callsOn I cs = passCalls env now D I (ds.count I) (s.kernel I) := by
  induction ds generalizing s c with
  | nil => exact ⟨[], by simp, rfl, fun I => rfl⟩
  | cons d rest ih =>
    rw [List.foldl_cons, updateInterface_frame]
    obtain ⟨cs, h1, h2, h3⟩ := ih
      { kernel := Function.update s.kernel d ((passOn env now D d (s.kernel d)).1.kernel d)
        calls := s.calls ++ (passOn env now D d (s.kernel d)).1.calls
        logs := s.logs ++ (passOn env now D d (s.kernel d)).1.logs
        metrics := s.metrics } (c + (passOn env now D d (s.kernel d)).2)
    have hp := passOn_calls env now D d (s.kernel d)
    refine ⟨(passOn env now D d (s.kernel d)).1.calls ++ cs, ?_, ?_, ?_⟩
    · rw [h1]
      simp [List.append_assoc]
    · unfold deviceReads at h2 hp ⊢
      rw [List.filterMap_append, h2, hp.2]
      rfl
    · intro I
      have h3I := h3 I
      unfold callsOn at h3I ⊢
      rw [List.filter_append, h3I]
      by_cases hd : d = I
      · subst hd
        have : (passOn env now D d (s.kernel d)).1.calls.filter (fun c => decide (c.name = d)) =
            (passOn env now D d (s.kernel d)).1.calls := by
          rw [List.filter_eq_self]
          intro x hx
          simpa using hp.1 x hx
        rw [this]
        simp [passCalls, passIface]
      · have hne : I ≠ d := fun e => hd e.symm
        have : (passOn env now D d (s.kernel d)).1.calls.filter (fun c => decide (c.name = I)) =
            [] := by
          rw [List.filter_eq_nil_iff]
          intro x hx
          have := hp.1 x hx
          simp [this, hd]
        rw [this]
        simp [hd, hne, Function.update_noteq hne]

end wireguard

/-! ## The tunnel applier: what `UpdatePeers` leaves on an interface -/

namespace wireguard

open cvtypes cvctrl

theorem iterate_invariant {α : Type} (f : α → α) (P : α → Prop) (hP : ∀ x, P x → P (f x))
    (n : Nat) (x : α) (hx : P x) : P (f^[n] x) := by
  induction n with
  | zero => exact hx
  | succ m ih =>
    rw [Function.iterate_succ_apply']
    exact hP _ ih

theorem iterate_post {α : Type} (f : α → α) (P Q : α → Prop) (hP : ∀ x, P x → P (f x))
    (hQ : ∀ x, P x → Q (f x)) (n : Nat) (hn : 0 < n) (x : α) (hx : P x) : Q (f^[n] x) := by
  obtain ⟨m, rfl⟩ : ∃ m, n = m + 1 := ⟨n - 1, by omega⟩
  rw [Function.iterate_succ_apply']
  exact hQ _ (iterate_invariant f P hP m x hx)

/-- The state of interface `I` after `UpdatePeers`: one pass per occurrence of `I` among
the configured interfaces. -/
theorem UpdatePeers_kernel (env : Env) (now : time.Time) (w : cavpn) (R : api.cavpnPeerList)
    (s : World) (I : String) :
    (UpdatePeers env now w R s).kernel I =
      (passIface env now (mapPeers env R) I)^[w.interfaces.count I] (s.kernel I) := by
  unfold UpdatePeers
  exact kernel_foldl_updateInterface env now (mapPeers env R) w.interfaces s 0 I

theorem metrics_foldl_updateInterface (env : Env) (now : time.Time)
    (D : Go.Map Key (List net.IPNet)) (ds : List String) (s : World) (c : Nat) :
    (ds.foldl (updateInterface env now D) (s, c)).1.metrics = s.metrics := by
  induction ds generalizing s c with
  | nil => rfl
  | cons d rest ih => rw [List.foldl_cons, updateInterface_frame, ih]

/-- The only emission of `UpdatePeers` is the gauge `connected_peers`. -/
theorem UpdatePeers_metrics (env : Env) (now : time.Time) (w : cavpn) (R : api.cavpnPeerList)
    (s : World) :
    ∃ n, (UpdatePeers env now w R s).metrics =
      s.metrics ++ [statsd.Metric.Gauge "connected_peers" n] := by
  refine ⟨(w.interfaces.foldl (updateInterface env now (mapPeers env R)) (s, 0)).2, ?_⟩
  simp [UpdatePeers, World.emit, metrics_foldl_updateInterface]

/-- A property that one healthy pass establishes, and keeps, holds after `UpdatePeers`. -/
theorem UpdatePeers_establishes (env : Env) (now : time.Time) (w : cavpn)
    (R : api.cavpnPeerList) (s : World) (I : String) (P Q : Iface → Prop)
    (hP : ∀ i, P i → P (passIface env now (mapPeers env R) I i))
    (hQ : ∀ i, P i → Q (passIface env now (mapPeers env R) I i))
    (hI : I ∈ w.interfaces) (h0 : P (s.kernel I)) :
    Q ((UpdatePeers env now w R s).kernel I) := by
  rw [UpdatePeers_kernel]
  exact iterate_post _ P Q hP hQ _ (List.count_pos_iff.mpr hI) _ h0

theorem finalAt_isSome (now : time.Time) (k : Key) (D : Option (List net.IPNet))
    (E : Option Peer) : (∃ q, finalAt now k D E = some q) ↔ ∃ v, D = some v := by
  unfold finalAt primaryAt resetAt
  cases D with
  | none => cases E <;> simp [stepAt]
  | some v =>
    cases E with
    | none => simp [stepAt]
    | some p =>
      by_cases heq : iputil.EqualIPNet v p.AllowedIPs = true <;>
        by_cases hr : needsReset now p = true <;>
          simp [stepAt, heq, hr, resetPeerCfg_Remove]

end wireguard

namespace wireguard

open cvtypes cvctrl

/-- The keys on a healthy interface after one pass are the keys of the roster map. -/
theorem keys_passPeers (env : Env) (now : time.Time) (R : api.cavpnPeerList) (d : String)
    (ps : List Peer) (hps : (keysOf ps).Nodup) (k : Key) :
    k ∈ keysOf (passPeers env now (mapPeers env R) d ps) ↔
      ∃ p ∈ R, ∃ ipv4 ipv6, parsePeer env p = some (k, ipv4, ipv6) := by
  rw [mem_keysOf_iff, peerAt_passPeers env now _ d ps k (nodup_mapPeers env R) hps,
    finalAt_isSome, mapPeers_get_isSome]

/-- Roster peers that do not parse leave no trace in the roster map. -/
theorem mapPeers_filter (env : Env) (R : api.cavpnPeerList) :
    mapPeers env (R.filter (fun p => (parsePeer env p).isSome)) = mapPeers env R := by
  unfold mapPeers
  generalize ([] : Go.Map Key (List net.IPNet)) = m
  induction R generalizing m with
  | nil => rfl
  | cons p rest ih =>
    cases hp : parsePeer env p with
    | none =>
      have : mapPeersStep env m p = m := by simp [mapPeersStep, hp]
      simp [List.filter_cons, hp, this, ih]
    | some r => simp [List.filter_cons, hp, ih]

/-- C1. After `UpdatePeers(R)`, on every configured interface `I` whose device read and
configuration calls succeed (and which holds each key once), the public keys on `I`
are exactly the keys of the roster peers that `parsePeer` accepts. Roster peers that
fail to parse contribute nothing: the outcome is that of the roster without them.
`UpdatePeers` has no error result. -/
theorem UpdatePeers_keys_eq_parsed_roster (env : Env) (now : time.Time) (w : cavpn)
    (R : api.cavpnPeerList) (s : World) (I : String) (hI : I ∈ w.interfaces)
    (hh : (s.kernel I).healthy) (hn : (keysOf (s.kernel I).peers).Nodup) :
    (∀ k, k ∈ keysOf ((UpdatePeers env now w R s).kernel I).peers ↔
        ∃ p ∈ R, ∃ ipv4 ipv6, parsePeer env p = some (k, ipv4, ipv6)) ∧
      UpdatePeers env now w R s =
        UpdatePeers env now w (R.filter (fun p => (parsePeer env p).isSome)) s := by
  constructor
  · refine UpdatePeers_establishes env now w R s I
      (fun i => i.healthy ∧ (keysOf i.peers).Nodup)
      (fun i => ∀ k, k ∈ keysOf i.peers ↔
        ∃ p ∈ R, ∃ ipv4 ipv6, parsePeer env p = some (k, ipv4, ipv6)) ?_ ?_ hI ⟨hh, hn⟩
    · rintro i ⟨h1, h2⟩
      rw [(passOn_healthy env now _ I i h1).1]
      exact ⟨h1, nodup_passPeers env now _ I i.peers h2⟩
    · rintro i ⟨h1, h2⟩ k
      rw [(passOn_healthy env now _ I i h1).1]
      exact keys_passPeers env now R I i.peers h2 k
  · unfold UpdatePeers
    rw [mapPeers_filter]

/-- C1 at the malformed-peer scenario: roster of peer A and a peer with an empty public
key, interface `cv0` holding a stale peer A. -/
theorem UpdatePeers_keys_eq_parsed_roster_witness :
    ("cv0" ∈ fixture.cv.interfaces ∧ ((fixture.worldOf [fixture.staleA]).kernel "cv0").healthy ∧
        (keysOf ((fixture.worldOf [fixture.staleA]).kernel "cv0").peers).Nodup) ∧
      parsePeer fixture.env fixture.peerNoKey = none ∧
      keysOf ((UpdatePeers fixture.env fixture.now fixture.cv [fixture.peerA1, fixture.peerNoKey]
        (fixture.worldOf [fixture.staleA])).kernel "cv0").peers = [fixture.keyA] ∧
      ((∀ k, k ∈ keysOf ((UpdatePeers fixture.env fixture.now fixture.cv
            [fixture.peerA1, fixture.peerNoKey] (fixture.worldOf [fixture.staleA])).kernel
              "cv0").peers ↔
          ∃ p ∈ [fixture.peerA1, fixture.peerNoKey], ∃ ipv4 ipv6,
            parsePeer fixture.env p = some (k, ipv4, ipv6)) ∧
        UpdatePeers fixture.env fixture.now fixture.cv [fixture.peerA1, fixture.peerNoKey]
            (fixture.worldOf [fixture.staleA]) =
          UpdatePeers fixture.env fixture.now fixture.cv
            ([fixture.peerA1, fixture.peerNoKey].filter
              (fun p => (parsePeer fixture.env p).isSome))
            (fixture.worldOf [fixture.staleA])) :=
  ⟨⟨by decide, by decide, by decide⟩, by decide, by decide,
    UpdatePeers_keys_eq_parsed_roster fixture.env fixture.now fixture.cv
      [fixture.peerA1, fixture.peerNoKey] (fixture.worldOf [fixture.staleA]) "cv0"
      (by decide) (by decide) (by decide)⟩

end wireguard

namespace wireguard

open cvtypes cvctrl

/-- The roster map of `UpdatePeers` is the roster: it holds at every key the pair that
the roster gives for it. -/
theorem mapPeers_get_eq_rosterPair (env : Env) (R : api.cavpnPeerList) (k : Key) :
    (mapPeers env R).get k = rosterPair env R k := by
  unfold mapPeers rosterPair
  have key : ∀ (m : Go.Map Key (List net.IPNet)) (o : Option (List net.IPNet)), m.get k = o →
      (R.foldl (mapPeersStep env) m).get k =
        R.foldl
          (fun found p =>
            match parsePeer env p with
            | none => found
            | some (key, ipv4, ipv6) => if key = k then some [ipv4, ipv6] else found)
          o := by
    induction R with
    | nil => exact fun m o h => h
    | cons p rest ih =>
      intro m o h
      rw [List.foldl_cons, List.foldl_cons]
      apply ih
      rw [get_mapPeersStep]
      cases hp : parsePeer env p with
      | none => exact h
      | some r =>
        obtain ⟨key, ipv4, ipv6⟩ := r
        by_cases hk : key = k <;> simp [hk, h]
  exact key [] none rfl

/-- The pair that the roster gives for `k` is that of the last roster peer that parses
to `k`. -/
theorem rosterPair_last (env : Env) (before after : api.cavpnPeerList) (p : api.cavpnPeer)
    (k : Key) (ipv4 ipv6 : net.IPNet) (hp : parsePeer env p = some (k, ipv4, ipv6))
    (hlast : ∀ q ∈ after, ∀ a b, parsePeer env q ≠ some (k, a, b)) :
    rosterPair env (before ++ p :: after) k = some [ipv4, ipv6] := by
  rw [← mapPeers_get_eq_rosterPair]
  exact mapPeers_get_last env before after p k ipv4 ipv6 hp hlast

theorem rosterPair_isSome (env : Env) (R : api.cavpnPeerList) (k : Key) :
    (∃ v, rosterPair env R k = some v) ↔
      ∃ p ∈ R, ∃ ipv4 ipv6, parsePeer env p = some (k, ipv4, ipv6) := by
  rw [← mapPeers_get_eq_rosterPair]
  exact mapPeers_get_isSome env R k

theorem needsReset_newPeer (now : time.Time) (c : PeerConfig) :
    needsReset now (newPeer c) = false := by
  simp [needsReset, newPeer, time.IsZero]

/-- A peer that is not reset ends a pass with the pair of the roster map. -/
theorem finalAt_no_reset (now : time.Time) (k : Key) (v : List net.IPNet) (E : Option Peer)
    (hE : ∀ p, E = some p → needsReset now p = false) :
    ∃ q, finalAt now k (some v) E = some q ∧ q.AllowedIPs = v ∧ needsReset now q = false := by
  unfold finalAt primaryAt resetAt
  cases E with
  | none =>
    refine ⟨newPeer { PublicKey := k, ReplaceAllowedIPs := true, AllowedIPs := v }, ?_, rfl,
      needsReset_newPeer _ _⟩
    simp [stepAt]
  | some p =>
    have hr : needsReset now p = false := hE p rfl
    by_cases heq : iputil.EqualIPNet v p.AllowedIPs = true
    · refine ⟨p, ?_, ?_, hr⟩
      · simp [stepAt, heq, hr]
      · have : v = p.AllowedIPs := by simpa [iputil.EqualIPNet] using heq
        exact this.symm
    · refine ⟨updatePeer { PublicKey := k, ReplaceAllowedIPs := true, AllowedIPs := v } p, ?_,
        ?_, hr⟩
      · simp [stepAt, heq, hr]
      · simp [updatePeer]

/-- Outside the reset path the pair of the roster prevails: on a healthy interface, a
roster key whose peer is absent, or present without the reset condition, ends
`UpdatePeers` with exactly the pair that the roster gives for it, whatever its allowed
IPs were. -/
theorem UpdatePeers_allowedIPs_when_not_reset (env : Env) (now : time.Time) (w : cavpn)
    (R : api.cavpnPeerList) (s : World) (I : String) (k : Key) (v : List net.IPNet)
    (hI : I ∈ w.interfaces) (hh : (s.kernel I).healthy)
    (hn : (keysOf (s.kernel I).peers).Nodup) (hv : rosterPair env R k = some v)
    (hreset : ∀ p, peerAt (s.kernel I).peers k = some p → needsReset now p = false) :
    ∃ q, peerAt ((UpdatePeers env now w R s).kernel I).peers k = some q ∧ q.AllowedIPs = v := by
  have hD : (mapPeers env R).get k = some v := by rw [mapPeers_get_eq_rosterPair, hv]
  have step : ∀ i : Iface,
      (i.healthy ∧ (keysOf i.peers).Nodup ∧
        ∀ p, peerAt i.peers k = some p → needsReset now p = false) →
      (passIface env now (mapPeers env R) I i).healthy ∧
        (keysOf (passIface env now (mapPeers env R) I i).peers).Nodup ∧
        ∃ q, peerAt (passIface env now (mapPeers env R) I i).peers k = some q ∧
          q.AllowedIPs = v ∧ needsReset now q = false := by
    rintro i ⟨h1, h2, h3⟩
    rw [(passOn_healthy env now _ I i h1).1]
    refine ⟨h1, nodup_passPeers env now _ I i.peers h2, ?_⟩
    show ∃ q, peerAt (passPeers env now (mapPeers env R) I i.peers) k = some q ∧ _
    rw [peerAt_passPeers env now _ I i.peers k (nodup_mapPeers env R) h2, hD]
    exact finalAt_no_reset now k v _ h3
  refine UpdatePeers_establishes env now w R s I
    (fun i => i.healthy ∧ (keysOf i.peers).Nodup ∧
      ∀ p, peerAt i.peers k = some p → needsReset now p = false)
    (fun i => ∃ q, peerAt i.peers k = some q ∧ q.AllowedIPs = v) ?_ ?_ hI ⟨hh, hn, hreset⟩
  · intro i hi
    obtain ⟨a, b, q, hq, _, hr⟩ := step i hi
    refine ⟨a, b, ?_⟩
    intro p hp
    rw [hq] at hp
    cases hp
    exact hr
  · intro i hi
    obtain ⟨_, _, q, hq, hv2, _⟩ := step i hi
    exact ⟨q, hq, hv2⟩

/-- The scenario `update peer ip` of the test: peer A is on `cv0` with its first
addresses and no handshake, the roster gives it the second addresses. -/
theorem UpdatePeers_allowedIPs_when_not_reset_witness :
    ("cv0" ∈ fixture.cv.interfaces ∧ ((fixture.worldOf [fixture.freshA]).kernel "cv0").healthy ∧
        (keysOf ((fixture.worldOf [fixture.freshA]).kernel "cv0").peers).Nodup ∧
        rosterPair fixture.env [fixture.peerA2] fixture.keyA =
          some [fixture.v4_2, fixture.v6_2] ∧
        needsReset fixture.now fixture.freshA = false) ∧
      ∃ q, peerAt ((UpdatePeers fixture.env fixture.now fixture.cv [fixture.peerA2]
          (fixture.worldOf [fixture.freshA])).kernel "cv0").peers fixture.keyA = some q ∧
        q.AllowedIPs = [fixture.v4_2, fixture.v6_2] :=
  ⟨⟨by decide, by decide, by decide, by decide, by decide⟩,
    UpdatePeers_allowedIPs_when_not_reset fixture.env fixture.now fixture.cv [fixture.peerA2]
      (fixture.worldOf [fixture.freshA]) "cv0" fixture.keyA [fixture.v4_2, fixture.v6_2]
      (by decide) (by decide) (by decide) (by decide)
      (fun p hp => by
        have h : peerAt ((fixture.worldOf [fixture.freshA]).kernel "cv0").peers fixture.keyA =
            some fixture.freshA := by decide
        rw [h] at hp
        cases hp
        decide)⟩

/-- C2 fails on the code. Roster: peer A with the addresses `10.99.0.2/32` and
`fc00:bbbb:bbbb:bb01::2/128`. Interface `cv0`, healthy: peer A with the addresses
`10.99.0.1/32` and `fc00:bbbb:bbbb:bb01::1/128` and a last handshake four minutes ago.
The roster peer parses, `cfgPeers` is the update of A followed by the removal of A,
`resetPeers` re-adds A with the addresses read from the interface, and after
`UpdatePeers` the interface still shows the old addresses, not those of the roster. -/
theorem UpdatePeers_reset_discards_new_allowedIPs :
    parsePeer fixture.env fixture.peerA2 = some (fixture.keyA, fixture.v4_2, fixture.v6_2) ∧
      ((fixture.worldOf [fixture.staleA]).kernel "cv0").healthy ∧
      needsReset fixture.now fixture.staleA = true ∧
      batches fixture.env fixture.now (mapPeers fixture.env [fixture.peerA2]) "cv0"
          [fixture.staleA] =
        ([{ PublicKey := fixture.keyA, ReplaceAllowedIPs := true,
            AllowedIPs := [fixture.v4_2, fixture.v6_2] },
          { PublicKey := fixture.keyA, Remove := true }],
         [{ PublicKey := fixture.keyA, ReplaceAllowedIPs := true,
            AllowedIPs := [fixture.v4_1, fixture.v6_1], PresharedKey := some fixture.psk7 }]) ∧
      ((UpdatePeers fixture.env fixture.now fixture.cv [fixture.peerA2]
          (fixture.worldOf [fixture.staleA])).kernel "cv0").peers =
        [{ PublicKey := fixture.keyA, PresharedKey := fixture.psk7,
           AllowedIPs := [fixture.v4_1, fixture.v6_1], LastHandshakeTime := 0 }] ∧
      [fixture.v4_1, fixture.v6_1] ≠ [fixture.v4_2, fixture.v6_2] := by
  decide

end wireguard

namespace wireguard

open cvtypes cvctrl

/-- The copy of a key is the key, byte for byte. -/
theorem copiedKey_eq (psk : Key) : copiedKey psk = psk := by
  apply Subtype.ext
  have h := psk.property
  show Go.copy emptyKey.val psk.val = psk.val
  have h1 : emptyKey.val.length = psk.val.length := by
    rw [h]
    exact emptyKey.property
  unfold Go.copy
  rw [h1, List.take_length, ← h1, List.drop_length, List.append_nil]

theorem resetPeerCfg_of_psk (k : Key) (p : Peer) (h : p.PresharedKey ≠ emptyKey) :
    resetPeerCfg k p =
      { PublicKey := k, ReplaceAllowedIPs := true, AllowedIPs := p.AllowedIPs,
        PresharedKey := some p.PresharedKey } := by
  simp [resetPeerCfg, h, copiedKey_eq]

/-- The preshared key that the re-add record gives back to the peer is the observed
one, zero or not. -/
theorem newPeer_resetPeerCfg_psk (k : Key) (p : Peer) :
    (newPeer (resetPeerCfg k p)).PresharedKey = p.PresharedKey := by
  by_cases h : p.PresharedKey = emptyKey
  · simp [resetPeerCfg, newPeer, h]
  · simp [resetPeerCfg, newPeer, h, copiedKey_eq]

/-- A roster peer that is on the interface keeps its preshared key through a pass. -/
theorem finalAt_psk (now : time.Time) (k : Key) (v : List net.IPNet) (p : Peer) :
    ∃ q, finalAt now k (some v) (some p) = some q ∧ q.PresharedKey = p.PresharedKey := by
  unfold finalAt primaryAt resetAt
  by_cases hr : needsReset now p = true
  · refine ⟨newPeer (resetPeerCfg k p), ?_, newPeer_resetPeerCfg_psk k p⟩
    by_cases heq : iputil.EqualIPNet v p.AllowedIPs = true <;>
      simp [stepAt, heq, hr, resetPeerCfg_Remove]
  · by_cases heq : iputil.EqualIPNet v p.AllowedIPs = true
    · exact ⟨p, by simp [stepAt, heq, hr], rfl⟩
    · exact ⟨updatePeer { PublicKey := k, ReplaceAllowedIPs := true, AllowedIPs := v } p,
        by simp [stepAt, heq, hr], by simp [updatePeer]⟩

/-- The calls that `UpdatePeers` adds to the record: one device read per configured
interface, in order, and on each interface the calls of its successive passes. -/
theorem newCalls_UpdatePeers (env : Env) (now : time.Time) (w : cavpn)
    (R : api.cavpnPeerList) (s : World) :
    deviceReads (newCalls s (UpdatePeers env now w R s)) = w.interfaces ∧
      ∀ I, callsOn I (newCalls s (UpdatePeers env now w R s)) =
        passCalls env now (mapPeers env R) I (w.interfaces.count I) (s.kernel I) := by
  obtain ⟨cs, h1, h2, h3⟩ :=
    calls_foldl_updateInterface env now (mapPeers env R) w.interfaces s 0
  have : newCalls s (UpdatePeers env now w R s) = cs := by
    unfold newCalls UpdatePeers
    simp [World.emit, h1]
  rw [this]
  exact ⟨h2, h3⟩

theorem mem_of_mem_filter_key (b : List PeerConfig) (k : Key) (c : PeerConfig)
    (h : c ∈ b.filter (fun c => decide (c.PublicKey = k))) : c ∈ b :=
  (List.mem_filter.mp h).1

/-- C3. A peer that `UpdatePeers` resets on a healthy interface `I` (on the interface,
in the roster, `needsReset` true) with a non-zero observed preshared key: `cfgPeers`
removes it; `resetPeers` holds for its key exactly one record, which carries the
observed public key, the observed allowed IPs and a preshared key equal to the observed
one; the first pass over `I` is the device read, the call with `cfgPeers` and the call
with `resetPeers`; and after `UpdatePeers` the peer is on `I` with the same public key
and the same preshared key. -/
theorem UpdatePeers_reset_preserves_preshared_key (env : Env) (now : time.Time) (w : cavpn)
    (R : api.cavpnPeerList) (s : World) (I : String) (p : Peer) (hI : I ∈ w.interfaces)
    (hh : (s.kernel I).healthy) (hn : (keysOf (s.kernel I).peers).Nodup)
    (hp : p ∈ (s.kernel I).peers)
    (hR : ∃ r ∈ R, ∃ ipv4 ipv6, parsePeer env r = some (p.PublicKey, ipv4, ipv6))
    (hreset : needsReset now p = true) (hpsk : p.PresharedKey ≠ emptyKey) :
    ({ PublicKey := p.PublicKey, Remove := true } : PeerConfig) ∈
        (batches env now (mapPeers env R) I (s.kernel I).peers).1 ∧
      (∀ c ∈ (batches env now (mapPeers env R) I (s.kernel I).peers).2,
        c.PublicKey = p.PublicKey →
          c = { PublicKey := p.PublicKey, ReplaceAllowedIPs := true, AllowedIPs := p.AllowedIPs,
                PresharedKey := some p.PresharedKey }) ∧
      ({ PublicKey := p.PublicKey, ReplaceAllowedIPs := true, AllowedIPs := p.AllowedIPs,
         PresharedKey := some p.PresharedKey } : PeerConfig) ∈
        (batches env now (mapPeers env R) I (s.kernel I).peers).2 ∧
      [Call.Device I true,
        Call.ConfigureDevice I
          { Peers := (batches env now (mapPeers env R) I (s.kernel I).peers).1 } true,
        Call.ConfigureDevice I
          { Peers := (batches env now (mapPeers env R) I (s.kernel I).peers).2 } true] <+:
        callsOn I (newCalls s (UpdatePeers env now w R s)) ∧
      ∃ q, peerAt ((UpdatePeers env now w R s).kernel I).peers p.PublicKey = some q ∧
        q.PublicKey = p.PublicKey ∧ q.PresharedKey = p.PresharedKey := by
  obtain ⟨v, hv⟩ := (mapPeers_get_isSome env R p.PublicKey).mpr hR
  have hE : peerAt (s.kernel I).peers p.PublicKey = some p := peerAt_of_mem hn hp
  have hcfg := cfgPeers_at env now (mapPeers env R) I (s.kernel I).peers p.PublicKey
    (nodup_mapPeers env R) hn
  have hres := resetPeers_at env now (mapPeers env R) I (s.kernel I).peers p.PublicKey hn
  rw [hv, hE] at hcfg hres
  have hres2 : (batches env now (mapPeers env R) I (s.kernel I).peers).2.filter
      (fun c => decide (c.PublicKey = p.PublicKey)) =
      [{ PublicKey := p.PublicKey, ReplaceAllowedIPs := true, AllowedIPs := p.AllowedIPs,
         PresharedKey := some p.PresharedKey }] := by
    rw [hres]
    simp [resetAt, hreset, resetPeerCfg_of_psk _ _ hpsk]
  have hmem1 : ({ PublicKey := p.PublicKey, Remove := true } : PeerConfig) ∈
      (batches env now (mapPeers env R) I (s.kernel I).peers).1 := by
    apply mem_of_mem_filter_key _ p.PublicKey
    rw [hcfg]
    simp [primaryAt, hreset]
  have hmem2 :
      ({ PublicKey := p.PublicKey, ReplaceAllowedIPs := true, AllowedIPs := p.AllowedIPs,
         PresharedKey := some p.PresharedKey } : PeerConfig) ∈
        (batches env now (mapPeers env R) I (s.kernel I).peers).2 := by
    apply mem_of_mem_filter_key _ p.PublicKey
    rw [hres2]
    exact List.mem_singleton.mpr rfl
  refine ⟨hmem1, ?_, hmem2, ?_, ?_⟩
  · intro c hc hk
    have : c ∈ (batches env now (mapPeers env R) I (s.kernel I).peers).2.filter
        (fun c => decide (c.PublicKey = p.PublicKey)) :=
      List.mem_filter.mpr ⟨hc, by simpa using hk⟩
    rw [hres2] at this
    exact List.mem_singleton.mp this
  · rw [(newCalls_UpdatePeers env now w R s).2 I]
    obtain ⟨n, hcount⟩ : ∃ n, w.interfaces.count I = n + 1 :=
      ⟨w.interfaces.count I - 1, by have := List.count_pos_iff.mpr hI; omega⟩
    rw [hcount]
    have hne1 : ¬ (batches env now (mapPeers env R) I (s.kernel I).peers).1.length = 0 := by
      intro h0
      rw [List.length_eq_zero.mp h0] at hmem1
      simp at hmem1
    have hne2 : ¬ (batches env now (mapPeers env R) I (s.kernel I).peers).2.length = 0 := by
      intro h0
      rw [List.length_eq_zero.mp h0] at hmem2
      simp at hmem2
    unfold passCalls
    rw [(passOn_healthy env now _ I _ hh).2]
    simp only [hne1, hne2, if_false]
    exact List.prefix_append _ _
  · have step : ∀ i : Iface,
        (i.healthy ∧ (keysOf i.peers).Nodup ∧
          ∃ q, peerAt i.peers p.PublicKey = some q ∧ q.PresharedKey = p.PresharedKey) →
        (passIface env now (mapPeers env R) I i).healthy ∧
          (keysOf (passIface env now (mapPeers env R) I i).peers).Nodup ∧
          ∃ q, peerAt (passIface env now (mapPeers env R) I i).peers p.PublicKey = some q ∧
            q.PresharedKey = p.PresharedKey := by
      rintro i ⟨h1, h2, q, hq, hqpsk⟩
      rw [(passOn_healthy env now _ I i h1).1]
      refine ⟨h1, nodup_passPeers env now _ I i.peers h2, ?_⟩
      show ∃ q, peerAt (passPeers env now (mapPeers env R) I i.peers) p.PublicKey = some q ∧ _
      rw [peerAt_passPeers env now _ I i.peers p.PublicKey (nodup_mapPeers env R) h2, hv, hq]
      obtain ⟨q2, hq2, hpsk2⟩ := finalAt_psk now p.PublicKey v q
      exact ⟨q2, hq2, hpsk2.trans hqpsk⟩
    have := UpdatePeers_establishes env now w R s I
      (fun i => i.healthy ∧ (keysOf i.peers).Nodup ∧
        ∃ q, peerAt i.peers p.PublicKey = some q ∧ q.PresharedKey = p.PresharedKey)
      (fun i => ∃ q, peerAt i.peers p.PublicKey = some q ∧ q.PresharedKey = p.PresharedKey)
      step (fun i hi => (step i hi).2.2) hI ⟨hh, hn, p, hE, rfl⟩
    obtain ⟨q, hq, hqpsk⟩ := this
    exact ⟨q, hq, (peerAt_some hq).1, hqpsk⟩

/-- C3 at the scenario of the spec: the roster lists peer A, interface `cv0` holds A
with a non-zero preshared key and a last handshake four minutes ago. -/
theorem UpdatePeers_reset_preserves_preshared_key_witness :
    ("cv0" ∈ fixture.cv.interfaces ∧ ((fixture.worldOf [fixture.staleA]).kernel "cv0").healthy ∧
        (keysOf ((fixture.worldOf [fixture.staleA]).kernel "cv0").peers).Nodup ∧
        fixture.staleA ∈ ((fixture.worldOf [fixture.staleA]).kernel "cv0").peers ∧
        (∃ r ∈ [fixture.peerA1], ∃ ipv4 ipv6,
          parsePeer fixture.env r = some (fixture.staleA.PublicKey, ipv4, ipv6)) ∧
        needsReset fixture.now fixture.staleA = true ∧
        fixture.staleA.PresharedKey ≠ emptyKey) ∧
      ((UpdatePeers fixture.env fixture.now fixture.cv [fixture.peerA1]
          (fixture.worldOf [fixture.staleA])).kernel "cv0").peers =
        [{ fixture.staleA with LastHandshakeTime := 0 }] ∧
      (({ PublicKey := fixture.staleA.PublicKey, Remove := true } : PeerConfig) ∈
          (batches fixture.env fixture.now (mapPeers fixture.env [fixture.peerA1]) "cv0"
            ((fixture.worldOf [fixture.staleA]).kernel "cv0").peers).1 ∧
        (∀ c ∈ (batches fixture.env fixture.now (mapPeers fixture.env [fixture.peerA1]) "cv0"
            ((fixture.worldOf [fixture.staleA]).kernel "cv0").peers).2,
          c.PublicKey = fixture.staleA.PublicKey →
            c = { PublicKey := fixture.staleA.PublicKey, ReplaceAllowedIPs := true,
                  AllowedIPs := fixture.staleA.AllowedIPs,
                  PresharedKey := some fixture.staleA.PresharedKey }) ∧
        ({ PublicKey := fixture.staleA.PublicKey, ReplaceAllowedIPs := true,
           AllowedIPs := fixture.staleA.AllowedIPs,
           PresharedKey := some fixture.staleA.PresharedKey } : PeerConfig) ∈
          (batches fixture.env fixture.now (mapPeers fixture.env [fixture.peerA1]) "cv0"
            ((fixture.worldOf [fixture.staleA]).kernel "cv0").peers).2 ∧
        [Call.Device "cv0" true,
          Call.ConfigureDevice "cv0"
            { Peers := (batches fixture.env fixture.now (mapPeers fixture.env [fixture.peerA1])
                "cv0" ((fixture.worldOf [fixture.staleA]).kernel "cv0").peers).1 } true,
          Call.ConfigureDevice "cv0"
            { Peers := (batches fixture.env fixture.now (mapPeers fixture.env [fixture.peerA1])
                "cv0" ((fixture.worldOf [fixture.staleA]).kernel "cv0").peers).2 } true] <+:
          callsOn "cv0" (newCalls (fixture.worldOf [fixture.staleA])
            (UpdatePeers fixture.env fixture.now fixture.cv [fixture.peerA1]
              (fixture.worldOf [fixture.staleA]))) ∧
        ∃ q, peerAt ((UpdatePeers fixture.env fixture.now fixture.cv [fixture.peerA1]
            (fixture.worldOf [fixture.staleA])).kernel "cv0").peers fixture.staleA.PublicKey =
              some q ∧
          q.PublicKey = fixture.staleA.PublicKey ∧
          q.PresharedKey = fixture.staleA.PresharedKey) :=
  ⟨⟨by decide, by decide, by decide, by decide,
      ⟨fixture.peerA1, by decide, fixture.v4_1, fixture.v6_1, by decide⟩, by decide,
      by decide⟩,
    by decide,
    UpdatePeers_reset_preserves_preshared_key fixture.env fixture.now fixture.cv
      [fixture.peerA1] (fixture.worldOf [fixture.staleA]) "cv0" fixture.staleA (by decide)
      (by decide) (by decide) (by decide)
      ⟨fixture.peerA1, by decide, fixture.v4_1, fixture.v6_1, by decide⟩ (by decide)
      (by decide)⟩

end wireguard

namespace wireguard

open cvtypes cvctrl

/-- A peer whose roster pair is its observed list and that needs no reset has no entry
in `cfgPeers` and none in `resetPeers`. -/
theorem no_entry_for_synced_peer (env : Env) (now : time.Time) (R : api.cavpnPeerList)
    (d : String) (ps : List Peer) (hn : (keysOf ps).Nodup) (p : Peer) (hp : p ∈ ps)
    (hv : rosterPair env R p.PublicKey = some p.AllowedIPs) (hr : needsReset now p = false) :
    ∀ c ∈ (batches env now (mapPeers env R) d ps).1 ++ (batches env now (mapPeers env R) d ps).2,
      c.PublicKey ≠ p.PublicKey := by
  have hD : (mapPeers env R).get p.PublicKey = some p.AllowedIPs := by
    rw [mapPeers_get_eq_rosterPair, hv]
  have hE : peerAt ps p.PublicKey = some p := peerAt_of_mem hn hp
  have hcfg := cfgPeers_at env now (mapPeers env R) d ps p.PublicKey (nodup_mapPeers env R) hn
  have hres := resetPeers_at env now (mapPeers env R) d ps p.PublicKey hn
  rw [hD, hE] at hcfg hres
  have h1 : primaryAt now p.PublicKey (some p.AllowedIPs) (some p) = [] := by
    simp [primaryAt, hr, iputil.EqualIPNet]
  have h2 : resetAt now p.PublicKey (some p.AllowedIPs) (some p) = [] := by
    simp [resetAt, hr]
  rw [h1] at hcfg
  rw [h2] at hres
  intro c hc hk
  rcases List.mem_append.mp hc with h | h
  · have : c ∈ (batches env now (mapPeers env R) d ps).1.filter
        (fun c => decide (c.PublicKey = p.PublicKey)) :=
      List.mem_filter.mpr ⟨h, by simpa using hk⟩
    rw [hcfg] at this
    simp at this
  · have : c ∈ (batches env now (mapPeers env R) d ps).2.filter
        (fun c => decide (c.PublicKey = p.PublicKey)) :=
      List.mem_filter.mpr ⟨h, by simpa using hk⟩
    rw [hres] at this
    simp at this

/-- When the interface holds exactly the roster, `cfgPeers` is empty. -/
theorem cfgPeers_nil_of_synced (env : Env) (now : time.Time) (R : api.cavpnPeerList)
    (d : String) (ps : List Peer) (hn : (keysOf ps).Nodup)
    (hall : ∀ p ∈ ps, rosterPair env R p.PublicKey = some p.AllowedIPs ∧
      needsReset now p = false)
    (hkeys : ∀ r ∈ R, ∀ k ipv4 ipv6, parsePeer env r = some (k, ipv4, ipv6) → k ∈ keysOf ps) :
    (batches env now (mapPeers env R) d ps).1 = [] := by
  rw [List.eq_nil_iff_forall_not_mem]
  intro c hc
  have hmem : c ∈ (batches env now (mapPeers env R) d ps).1.filter
      (fun x => decide (x.PublicKey = c.PublicKey)) :=
    List.mem_filter.mpr ⟨hc, by simp⟩
  rw [cfgPeers_at env now (mapPeers env R) d ps c.PublicKey (nodup_mapPeers env R) hn,
    mapPeers_get_eq_rosterPair] at hmem
  cases hE : peerAt ps c.PublicKey with
  | some p =>
    have hp := peerAt_some hE
    obtain ⟨hv, hr⟩ := hall p hp.2
    rw [hp.1] at hv
    rw [hE, hv] at hmem
    simp [primaryAt, hr, iputil.EqualIPNet] at hmem
  | none =>
    cases hD : rosterPair env R c.PublicKey with
    | none =>
      rw [hE, hD] at hmem
      simp [primaryAt] at hmem
    | some v =>
      obtain ⟨r, hr, a, b, hpr⟩ := (rosterPair_isSome env R c.PublicKey).mp ⟨v, hD⟩
      have := hkeys r hr c.PublicKey a b hpr
      exact (peerAt_eq_none_iff ps c.PublicKey).mp hE this

theorem passCalls_of_fixed (env : Env) (now : time.Time) (D : Go.Map Key (List net.IPNet))
    (d : String) (i : Iface) (hfix : passIface env now D d i = i) (n : Nat) :
    ∀ c ∈ passCalls env now D d n i, c ∈ (passOn env now D d i).1.calls := by
  induction n with
  | zero => simp [passCalls]
  | succ m ih =>
    intro c hc
    unfold passCalls at hc
    rw [hfix] at hc
    rcases List.mem_append.mp hc with h | h
    · exact h
    · exact ih c h

/-- C4. On an interface that holds each key once: a peer that is on the interface, to
which the roster gives a pair `[ipv4, ipv6]` equal to its observed allowed-IP list, and
that does not satisfy `needsReset`, has no entry in `cfgPeers` (the primary batch) nor
in `resetPeers` (the re-add batch). When every peer on the interface is such a peer and
every parsed roster key is on the interface, `UpdatePeers` makes no `ConfigureDevice`
call on that interface and leaves it as it was. -/
theorem UpdatePeers_leaves_synced_peers_alone (env : Env) (now : time.Time) (w : cavpn)
    (R : api.cavpnPeerList) (s : World) (I : String)
    (hn : (keysOf (s.kernel I).peers).Nodup) :
    (∀ p ∈ (s.kernel I).peers, rosterPair env R p.PublicKey = some p.AllowedIPs →
        needsReset now p = false →
        ∀ c ∈ (batches env now (mapPeers env R) I (s.kernel I).peers).1 ++
            (batches env now (mapPeers env R) I (s.kernel I).peers).2,
          c.PublicKey ≠ p.PublicKey) ∧
      ((∀ p ∈ (s.kernel I).peers, rosterPair env R p.PublicKey = some p.AllowedIPs ∧
          needsReset now p = false) →
        (∀ r ∈ R, ∀ k ipv4 ipv6, parsePeer env r = some (k, ipv4, ipv6) →
          k ∈ keysOf (s.kernel I).peers) →
        (∀ cfg ok, Call.ConfigureDevice I cfg ok ∉ newCalls s (UpdatePeers env now w R s)) ∧
          (UpdatePeers env now w R s).kernel I = s.kernel I) := by
  refine ⟨fun p hp hv hr =>
    no_entry_for_synced_peer env now R I (s.kernel I).peers hn p hp hv hr, ?_⟩
  intro hall hkeys
  have hnil := cfgPeers_nil_of_synced env now R I (s.kernel I).peers hn hall hkeys
  obtain ⟨hfix, hcalls⟩ := passOn_of_cfgPeers_nil env now (mapPeers env R) I (s.kernel I) hnil
  constructor
  · intro cfg ok hmem
    have h1 : Call.ConfigureDevice I cfg ok ∈
        callsOn I (newCalls s (UpdatePeers env now w R s)) := by
      unfold callsOn
      exact List.mem_filter.mpr ⟨hmem, by simp [Call.name]⟩
    rw [(newCalls_UpdatePeers env now w R s).2 I] at h1
    have h2 := passCalls_of_fixed env now _ I (s.kernel I) hfix _ _ h1
    rw [hcalls] at h2
    simp at h2
  · rw [UpdatePeers_kernel]
    exact iterate_invariant _ (fun i => i = s.kernel I) (fun x hx => by rw [hx]; exact hfix) _ _
      rfl

/-- C4 at the fixture: the roster lists peer A with the addresses that interface `cv0`
shows for it, and A made no handshake yet. -/
theorem UpdatePeers_leaves_synced_peers_alone_witness :
    ((keysOf ((fixture.worldOf [fixture.freshA]).kernel "cv0").peers).Nodup ∧
        fixture.freshA ∈ ((fixture.worldOf [fixture.freshA]).kernel "cv0").peers ∧
        (∀ p ∈ ((fixture.worldOf [fixture.freshA]).kernel "cv0").peers,
          rosterPair fixture.env [fixture.peerA1] p.PublicKey = some p.AllowedIPs ∧
          needsReset fixture.now p = false) ∧
        (∀ r ∈ [fixture.peerA1], ∀ k ipv4 ipv6,
          parsePeer fixture.env r = some (k, ipv4, ipv6) →
          k ∈ keysOf ((fixture.worldOf [fixture.freshA]).kernel "cv0").peers)) ∧
      (UpdatePeers fixture.env fixture.now fixture.cv [fixture.peerA1]
        (fixture.worldOf [fixture.freshA])).calls = [Call.Device "cv0" true] ∧
      (∀ c ∈ (batches fixture.env fixture.now (mapPeers fixture.env [fixture.peerA1]) "cv0"
              ((fixture.worldOf [fixture.freshA]).kernel "cv0").peers).1 ++
            (batches fixture.env fixture.now (mapPeers fixture.env [fixture.peerA1]) "cv0"
              ((fixture.worldOf [fixture.freshA]).kernel "cv0").peers).2,
          c.PublicKey ≠ fixture.freshA.PublicKey) ∧
      (∀ cfg ok, Call.ConfigureDevice "cv0" cfg ok ∉
          newCalls (fixture.worldOf [fixture.freshA])
            (UpdatePeers fixture.env fixture.now fixture.cv [fixture.peerA1]
              (fixture.worldOf [fixture.freshA]))) ∧
      (UpdatePeers fixture.env fixture.now fixture.cv [fixture.peerA1]
        (fixture.worldOf [fixture.freshA])).kernel "cv0" =
        (fixture.worldOf [fixture.freshA]).kernel "cv0" :=
  have hkeys : ∀ r ∈ [fixture.peerA1], ∀ k ipv4 ipv6,
      parsePeer fixture.env r = some (k, ipv4, ipv6) →
      k ∈ keysOf ((fixture.worldOf [fixture.freshA]).kernel "cv0").peers := by
    intro r hr k ipv4 ipv6 h
    rw [List.mem_singleton.mp hr] at h
    have h2 : parsePeer fixture.env fixture.peerA1 =
        some (fixture.keyA, fixture.v4_1, fixture.v6_1) := by decide
    rw [h2] at h
    cases h
    decide
  ⟨⟨by decide, by decide, by decide, hkeys⟩, by decide,
    (UpdatePeers_leaves_synced_peers_alone fixture.env fixture.now fixture.cv [fixture.peerA1]
      (fixture.worldOf [fixture.freshA]) "cv0" (by decide)).1 fixture.freshA (by decide)
      (by decide) (by decide),
    (UpdatePeers_leaves_synced_peers_alone fixture.env fixture.now fixture.cv [fixture.peerA1]
      (fixture.worldOf [fixture.freshA]) "cv0" (by decide)).2 (by decide) hkeys⟩

end wireguard

/-! ## One failing interface does not stop the others -/

namespace wireguard

open cvtypes cvctrl

/-- C5. Two worlds that differ on interface `i` only (in one of them a device read or
a configuration call on `i` fails, in the other it does not): `UpdatePeers` reads every
configured interface, in order, whatever fails; and on every other interface `j` it
makes the same calls with the same batches and leaves the same state in both worlds.
`UpdatePeers` has no error result. -/
theorem UpdatePeers_isolates_failing_interface (env : Env) (now : time.Time) (w : cavpn)
    (R : api.cavpnPeerList) (s s' : World) (i : String)
    (hsame : ∀ d, d ≠ i → s.kernel d = s'.kernel d) :
    deviceReads (newCalls s (UpdatePeers env now w R s)) = w.interfaces ∧
      ∀ j, j ≠ i →
        callsOn j (newCalls s (UpdatePeers env now w R s)) =
            callsOn j (newCalls s' (UpdatePeers env now w R s')) ∧
          (UpdatePeers env now w R s).kernel j = (UpdatePeers env now w R s').kernel j := by
  refine ⟨(newCalls_UpdatePeers env now w R s).1, ?_⟩
  intro j hj
  rw [(newCalls_UpdatePeers env now w R s).2 j, (newCalls_UpdatePeers env now w R s').2 j,
    UpdatePeers_kernel, UpdatePeers_kernel, hsame j hj]
  exact ⟨rfl, rfl⟩

/-- C5 with two interfaces, `cv0` unreadable: `cv1` gets the peer of the roster as it
does when `cv0` works. -/
theorem UpdatePeers_isolates_failing_interface_witness :
    (∀ d, d ≠ "cv0" →
        ({ kernel := fixture.kernelUnreadable [] } : World).kernel d =
          (fixture.worldOf []).kernel d) ∧
      (UpdatePeers fixture.env fixture.now fixture.cvTwo [fixture.peerA1]
          { kernel := fixture.kernelUnreadable [] }).calls =
        [Call.Device "cv0" false, Call.Device "cv1" true,
          Call.ConfigureDevice "cv1"
            { Peers := [{ PublicKey := fixture.keyA, ReplaceAllowedIPs := true,
                          AllowedIPs := [fixture.v4_1, fixture.v6_1] }] } true] ∧
      (UpdatePeers fixture.env fixture.now fixture.cvTwo [fixture.peerA1]
          { kernel := fixture.kernelRejecting [] }).calls =
        [Call.Device "cv0" true,
          Call.ConfigureDevice "cv0"
            { Peers := [{ PublicKey := fixture.keyA, ReplaceAllowedIPs := true,
                          AllowedIPs := [fixture.v4_1, fixture.v6_1] }] } false,
          Call.Device "cv1" true,
          Call.ConfigureDevice "cv1"
            { Peers := [{ PublicKey := fixture.keyA, ReplaceAllowedIPs := true,
                          AllowedIPs := [fixture.v4_1, fixture.v6_1] }] } true] ∧
      (deviceReads (newCalls { kernel := fixture.kernelUnreadable [] }
          (UpdatePeers fixture.env fixture.now fixture.cvTwo [fixture.peerA1]
            { kernel := fixture.kernelUnreadable [] })) = fixture.cvTwo.interfaces ∧
        ∀ j, j ≠ "cv0" →
          callsOn j (newCalls { kernel := fixture.kernelUnreadable [] }
              (UpdatePeers fixture.env fixture.now fixture.cvTwo [fixture.peerA1]
                { kernel := fixture.kernelUnreadable [] })) =
            callsOn j (newCalls (fixture.worldOf [])
              (UpdatePeers fixture.env fixture.now fixture.cvTwo [fixture.peerA1]
                (fixture.worldOf []))) ∧
          (UpdatePeers fixture.env fixture.now fixture.cvTwo [fixture.peerA1]
              { kernel := fixture.kernelUnreadable [] }).kernel j =
            (UpdatePeers fixture.env fixture.now fixture.cvTwo [fixture.peerA1]
              (fixture.worldOf [])).kernel j) :=
  have hsame : ∀ d, d ≠ "cv0" →
      ({ kernel := fixture.kernelUnreadable [] } : World).kernel d =
        (fixture.worldOf []).kernel d := by
    intro d hd
    simp [fixture.kernelUnreadable, fixture.worldOf, fixture.kernelOf, hd]
  ⟨hsame, by decide, by decide,
    UpdatePeers_isolates_failing_interface fixture.env fixture.now fixture.cvTwo
      [fixture.peerA1] { kernel := fixture.kernelUnreadable [] } (fixture.worldOf []) "cv0"
      hsame⟩

end wireguard

/-! ## The single-peer operations `AddPeer` and `RemovePeer` -/

namespace wireguard

open cvtypes cvctrl

theorem addPeerOn_eq (key : Key) (ipv4 ipv6 : net.IPNet) :
    addPeerOn key ipv4 ipv6 =
      configureAndLog
        { Peers := [{ PublicKey := key, ReplaceAllowedIPs := true, AllowedIPs := [ipv4, ipv6] }] } :=
  rfl

theorem removePeerOn_eq (key : Key) :
    removePeerOn key = configureAndLog { Peers := [{ PublicKey := key, Remove := true }] } :=
  rfl

/-- The state of interface `I` after one configuration call per interface of `ds`. -/
theorem kernel_foldl_configureAndLog (cfg : Config) (ds : List String) (s : World)
    (I : String) :
    (ds.foldl (configureAndLog cfg) s).kernel I =
      (fun i : Iface => (i.configure cfg).2)^[ds.count I] (s.kernel I) := by
  induction ds generalizing s with
  | nil => rfl
  | cons d rest ih =>
    rw [List.foldl_cons, ih]
    have hk : (configureAndLog cfg s d).kernel =
        Function.update s.kernel d ((s.kernel d).configure cfg).2 := by
      unfold configureAndLog ConfigureDevice
      cases ((s.kernel d).configure cfg).1 <;> simp [World.log]
    rw [hk]
    by_cases hd : d = I
    · subst hd
      simp [Function.iterate_succ_apply]
    · have hne : I ≠ d := fun e => hd e.symm
      simp [hd, hne, Function.update_noteq hne]

/-- The calls of one configuration call per interface of `ds`: one call per interface,
in order, each with the batch `cfg`. -/
theorem calls_foldl_configureAndLog (cfg : Config) (ds : List String) (s : World) :
    ∃ oks : List Bool, oks.length = ds.length ∧
      (ds.foldl (configureAndLog cfg) s).calls =
        s.calls ++ List.zipWith (fun d ok => Call.ConfigureDevice d cfg ok) ds oks := by
  induction ds generalizing s with
  | nil => exact ⟨[], rfl, by simp⟩
  | cons d rest ih =>
    rw [List.foldl_cons]
    obtain ⟨oks, hlen, hcalls⟩ := ih (configureAndLog cfg s d)
    have hc : (configureAndLog cfg s d).calls =
        s.calls ++ [Call.ConfigureDevice d cfg ((s.kernel d).configure cfg).1] := by
      unfold configureAndLog ConfigureDevice
      cases ((s.kernel d).configure cfg).1 <;> simp [World.log]
    refine ⟨((s.kernel d).configure cfg).1 :: oks, by simp [hlen], ?_⟩
    rw [hcalls, hc]
    simp [List.append_assoc]

theorem configure_of_no_fault (i : Iface) (cfg : Config) (h : i.cfgFaults = []) :
    (i.configure cfg).2 = { i with peers := applyConfig i.peers cfg } := by
  obtain ⟨ps, rf, cf⟩ := i
  simp only at h
  subst h
  simp [Iface.configure]

/-- A property that one successful configuration call establishes, and keeps, holds
after the loop over the interfaces. -/
theorem configureAndLog_establishes (cfg : Config) (ds : List String) (s : World) (I : String)
    (P Q : Iface → Prop) (hP : ∀ i, P i → P (i.configure cfg).2)
    (hQ : ∀ i, P i → Q (i.configure cfg).2) (hI : I ∈ ds) (h0 : P (s.kernel I)) :
    Q ((ds.foldl (configureAndLog cfg) s).kernel I) := by
  rw [kernel_foldl_configureAndLog]
  exact iterate_post _ P Q hP hQ _ (List.count_pos_iff.mpr hI) _ h0

/-- C6. For every peer `p` that parses, on every configured interface `I` whose
configuration calls succeed: after `AddPeer(p)` the key of `p` is on `I` with allowed
IPs `[ipv4, ipv6]`; after `AddPeer(p)` then `RemovePeer(p)` the key of `p` is not on
`I`; and from an empty interface, `I` holds exactly `p` after the add and nothing after
the remove. -/
theorem AddPeer_then_RemovePeer (env : Env) (w : cavpn) (p : api.cavpnPeer) (s : World)
    (I : String) (k : Key) (ipv4 ipv6 : net.IPNet)
    (hp : parsePeer env p = some (k, ipv4, ipv6)) (hI : I ∈ w.interfaces)
    (hc : (s.kernel I).cfgFaults = []) :
    (∃ q, peerAt ((AddPeer env w p s).kernel I).peers k = some q ∧
        q.AllowedIPs = [ipv4, ipv6]) ∧
      k ∉ keysOf ((RemovePeer env w p (AddPeer env w p s)).kernel I).peers ∧
      ((s.kernel I).peers = [] →
        ((AddPeer env w p s).kernel I).peers =
            [{ PublicKey := k, PresharedKey := emptyKey, AllowedIPs := [ipv4, ipv6],
               LastHandshakeTime := 0 }] ∧
          ((RemovePeer env w p (AddPeer env w p s)).kernel I).peers = []) := by
  have hadd : AddPeer env w p s =
      w.interfaces.foldl (configureAndLog (addConfig k ipv4 ipv6)) s := by
    simp [AddPeer, hp, addPeerOn_eq, addConfig]
  have hrem : ∀ s1, RemovePeer env w p s1 =
      w.interfaces.foldl (configureAndLog (removeConfig k)) s1 := by
    intro s1
    simp [RemovePeer, hp, removePeerOn_eq, removeConfig]
  have keep : ∀ (cfg : Config) (i : Iface), i.cfgFaults = [] →
      (i.configure cfg).2.cfgFaults = [] := by
    intro cfg i hi
    rw [configure_of_no_fault i _ hi]
    exact hi
  have hfaults : ((AddPeer env w p s).kernel I).cfgFaults = [] := by
    rw [hadd]
    exact configureAndLog_establishes _ w.interfaces s I (fun i => i.cfgFaults = [])
      (fun i => i.cfgFaults = []) (keep _) (keep _) hI hc
  refine ⟨?_, ?_, ?_⟩
  · rw [hadd]
    refine configureAndLog_establishes _ w.interfaces s I (fun i => i.cfgFaults = [])
      (fun i => ∃ q, peerAt i.peers k = some q ∧ q.AllowedIPs = [ipv4, ipv6])
      (keep _) ?_ hI hc
    intro i hi
    rw [configure_of_no_fault i _ hi]
    show ∃ q, peerAt (applyConfig i.peers (addConfig k ipv4 ipv6)) k = some q ∧ _
    simp only [applyConfig, addConfig, Bool.false_eq_true, if_false, List.foldl_cons,
      List.foldl_nil]
    rw [peerAt_applyPeerConfig]
    cases peerAt i.peers k <;> simp [stepAt, updatePeer, newPeer]
  · rw [hrem]
    refine configureAndLog_establishes _ w.interfaces _ I (fun i => i.cfgFaults = [])
      (fun i => k ∉ keysOf i.peers) (keep _) ?_ hI hfaults
    intro i hi
    rw [configure_of_no_fault i _ hi, ← peerAt_eq_none_iff]
    show peerAt (applyConfig i.peers (removeConfig k)) k = none
    simp only [applyConfig, removeConfig, Bool.false_eq_true, if_false, List.foldl_cons,
      List.foldl_nil]
    rw [peerAt_applyPeerConfig]
    simp [stepAt]
  · intro hempty
    show ((AddPeer env w p s).kernel I).peers = [addedPeer k ipv4 ipv6] ∧ _
    have step : ∀ i : Iface,
        (i.cfgFaults = [] ∧ (i.peers = [] ∨ i.peers = [addedPeer k ipv4 ipv6])) →
        (i.configure (addConfig k ipv4 ipv6)).2.cfgFaults = [] ∧
          (i.configure (addConfig k ipv4 ipv6)).2.peers = [addedPeer k ipv4 ipv6] := by
      rintro i ⟨h1, h2⟩
      rw [configure_of_no_fault i _ h1]
      refine ⟨h1, ?_⟩
      rcases h2 with h2 | h2 <;>
        simp [h2, applyConfig, addConfig, addedPeer, applyPeerConfig, newPeer, updatePeer]
    have hone : ((AddPeer env w p s).kernel I).cfgFaults = [] ∧
        ((AddPeer env w p s).kernel I).peers = [addedPeer k ipv4 ipv6] := by
      rw [hadd]
      exact configureAndLog_establishes _ w.interfaces s I
        (fun i => i.cfgFaults = [] ∧ (i.peers = [] ∨ i.peers = [addedPeer k ipv4 ipv6]))
        (fun i => i.cfgFaults = [] ∧ i.peers = [addedPeer k ipv4 ipv6])
        (fun i hi => ⟨(step i hi).1, Or.inr (step i hi).2⟩) step hI ⟨hc, Or.inl hempty⟩
    refine ⟨hone.2, ?_⟩
    rw [hrem]
    have step2 : ∀ i : Iface,
        (i.cfgFaults = [] ∧ (i.peers = [] ∨ i.peers = [addedPeer k ipv4 ipv6])) →
        (i.configure (removeConfig k)).2.cfgFaults = [] ∧
          (i.configure (removeConfig k)).2.peers = [] := by
      rintro i ⟨h1, h2⟩
      rw [configure_of_no_fault i _ h1]
      refine ⟨h1, ?_⟩
      rcases h2 with h2 | h2 <;>
        simp [h2, applyConfig, removeConfig, addedPeer, applyPeerConfig]
    exact (configureAndLog_establishes _ w.interfaces _ I
      (fun i => i.cfgFaults = [] ∧ (i.peers = [] ∨ i.peers = [addedPeer k ipv4 ipv6]))
      (fun i => i.cfgFaults = [] ∧ i.peers = [])
      (fun i hi => ⟨(step2 i hi).1, Or.inl (step2 i hi).2⟩) step2 hI
      ⟨hone.1, Or.inr hone.2⟩).2

/-- C6 at the single-peer scenario of the test: interface `cv0` empty, peer A. -/
theorem AddPeer_then_RemovePeer_witness :
    (parsePeer fixture.env fixture.peerA1 = some (fixture.keyA, fixture.v4_1, fixture.v6_1) ∧
        "cv0" ∈ fixture.cv.interfaces ∧ ((fixture.worldOf []).kernel "cv0").cfgFaults = [] ∧
        ((fixture.worldOf []).kernel "cv0").peers = []) ∧
      (∃ q, peerAt ((AddPeer fixture.env fixture.cv fixture.peerA1
            (fixture.worldOf [])).kernel "cv0").peers fixture.keyA = some q ∧
          q.AllowedIPs = [fixture.v4_1, fixture.v6_1]) ∧
      fixture.keyA ∉ keysOf ((RemovePeer fixture.env fixture.cv fixture.peerA1
        (AddPeer fixture.env fixture.cv fixture.peerA1 (fixture.worldOf []))).kernel "cv0").peers ∧
      ((AddPeer fixture.env fixture.cv fixture.peerA1 (fixture.worldOf [])).kernel "cv0").peers =
        [{ PublicKey := fixture.keyA, PresharedKey := emptyKey,
           AllowedIPs := [fixture.v4_1, fixture.v6_1], LastHandshakeTime := 0 }] ∧
      ((RemovePeer fixture.env fixture.cv fixture.peerA1
        (AddPeer fixture.env fixture.cv fixture.peerA1 (fixture.worldOf []))).kernel "cv0").peers =
        [] :=
  have h := AddPeer_then_RemovePeer fixture.env fixture.cv fixture.peerA1 (fixture.worldOf [])
    "cv0" fixture.keyA fixture.v4_1 fixture.v6_1 (by decide) (by decide) (by decide)
  ⟨⟨by decide, by decide, by decide, by decide⟩, h.1, h.2.1, (h.2.2 (by decide)).1,
    (h.2.2 (by decide)).2⟩

end wireguard

namespace wireguard

open cvtypes cvctrl

/-- C7 fails on the code: the public key of this peer parses and its IPv4 field is
empty; `parsePeer` returns an error, `RemovePeer` returns before its loop, makes no
call, and the key stays on interface `cv0`. -/
theorem RemovePeer_needs_whole_peer_to_parse :
    fixture.env.ParseKey fixture.peerANoV4.Pubkey = some fixture.keyA ∧
      parsePeer fixture.env fixture.peerANoV4 = none ∧
      (RemovePeer fixture.env fixture.cv fixture.peerANoV4
        (fixture.worldOf [fixture.freshA])).calls = [] ∧
      keysOf ((RemovePeer fixture.env fixture.cv fixture.peerANoV4
        (fixture.worldOf [fixture.freshA])).kernel "cv0").peers = [fixture.keyA] := by
  decide

/-- C7, amended. `RemovePeer` parses the whole peer and uses the key only. For a peer
that `parsePeer` accepts it makes one configuration call per configured interface, in
order, each with the single entry that marks the key for removal (whatever the
outcome `ok` of each call); for a peer that `parsePeer` rejects, be it for its key or
for one of its two networks, it does nothing. -/
theorem RemovePeer_calls (env : Env) (w : cavpn) (p : api.cavpnPeer) (s : World) :
    match parsePeer env p with
    | some (k, _, _) =>
      ∃ oks : List Bool, oks.length = w.interfaces.length ∧
        newCalls s (RemovePeer env w p s) =
          List.zipWith
            (fun d ok =>
              Call.ConfigureDevice d { Peers := [{ PublicKey := k, Remove := true }] } ok)
            w.interfaces oks
    | none => RemovePeer env w p s = s := by
  cases hp : parsePeer env p with
  | none => simp [RemovePeer, hp]
  | some r =>
    obtain ⟨k, ipv4, ipv6⟩ := r
    obtain ⟨oks, hlen, hcalls⟩ := calls_foldl_configureAndLog (removeConfig k) w.interfaces s
    refine ⟨oks, hlen, ?_⟩
    have : RemovePeer env w p s = w.interfaces.foldl (configureAndLog (removeConfig k)) s := by
      simp [RemovePeer, hp, removePeerOn_eq, removeConfig]
    unfold newCalls
    rw [this, hcalls]
    simp [removeConfig]

end wireguard

/-! ## The reconciliation engine: `synchronize` and `handleEvent` -/

namespace manager

open statsd

/-- C8. When the roster fetch returns an error, `synchronize` increments
`error_getting_peers` once (then sends its deferred timing) and calls no applier
operation: the kernel, the calls made to it and the packet-filter state are as they
were. When the fetch succeeds, it calls `UpdatePeers` and then `UpdatePortforwarding`,
both with the fetched roster, and increments no error counter. -/
theorem synchronize_on_fetch_result {π : Type} (g : Globals π) (x : api.Exchange)
    (s : System π) :
    match api.GetcavpnPeers g.env x with
    | Except.error _ =>
      (synchronize g x s).ops = s.ops ∧
        (synchronize g x s).world.kernel = s.world.kernel ∧
        (synchronize g x s).world.calls = s.world.calls ∧
        (synchronize g x s).pf = s.pf ∧
        (synchronize g x s).world.metrics =
          s.world.metrics ++ [Metric.Increment "error_getting_peers",
            Metric.Timing "synchronize_time"]
    | Except.ok peers =>
      (synchronize g x s).ops = s.ops ++ [Op.UpdatePeers peers, Op.UpdatePortforwarding peers] ∧
        (synchronize g x s).world.kernel =
          (wireguard.UpdatePeers g.env g.now g.cv peers
            (s.world.emit (Metric.Timing "get_cavpn_peers_time"))).kernel ∧
        (synchronize g x s).pf = g.pf.UpdatePortforwarding peers s.pf ∧
        ∃ n, (synchronize g x s).world.metrics =
          s.world.metrics ++ [Metric.Timing "get_cavpn_peers_time",
            Metric.Gauge "connected_peers" n, Metric.Timing "update_peers_time",
            Metric.Timing "update_portforwarding_time", Metric.Timing "synchronize_time"] := by
  cases h : api.GetcavpnPeers g.env x with
  | error err => simp [synchronize, h, emit, World.emit, World.log]
  | ok peers =>
    obtain ⟨n, hn⟩ := wireguard.UpdatePeers_metrics g.env g.now g.cv peers
      (s.world.emit (Metric.Timing "get_cavpn_peers_time"))
    refine ⟨?_, ?_, ?_, n, ?_⟩
    · simp [synchronize, h, emit, cvUpdatePeers, pfUpdatePortforwarding]
    · simp [synchronize, h, emit, World.emit, cvUpdatePeers, pfUpdatePortforwarding]
    · simp [synchronize, h, emit, cvUpdatePeers, pfUpdatePortforwarding]
    · simp only [synchronize, h, emit, cvUpdatePeers, pfUpdatePortforwarding]
      simp only [World.emit] at hn ⊢
      rw [hn]
      simp

/-- C9. `handleEvent` on an `ADD` event calls `AddPeer` then `AddPortforwarding`, on a
`REMOVE` event `RemovePeer` then `RemovePortforwarding`, each with the peer of the
event; on an event with any other action it calls no applier operation and leaves
the whole state as it was. It has no error result. -/
theorem handleEvent_dispatch {π : Type} (g : Globals π) (peer : api.cavpnPeer)
    (s : System π) :
    ((handleEvent g { Action := "ADD", Peer := peer } s).ops =
          s.ops ++ [Op.AddPeer peer, Op.AddPortforwarding peer] ∧
        (handleEvent g { Action := "ADD", Peer := peer } s).world =
          wireguard.AddPeer g.env g.cv peer s.world ∧
        (handleEvent g { Action := "ADD", Peer := peer } s).pf =
          g.pf.AddPortforwarding peer s.pf) ∧
      ((handleEvent g { Action := "REMOVE", Peer := peer } s).ops =
          s.ops ++ [Op.RemovePeer peer, Op.RemovePortforwarding peer] ∧
        (handleEvent g { Action := "REMOVE", Peer := peer } s).world =
          wireguard.RemovePeer g.env g.cv peer s.world ∧
        (handleEvent g { Action := "REMOVE", Peer := peer } s).pf =
          g.pf.RemovePortforwarding peer s.pf) ∧
      ∀ action : String, action ≠ "ADD" → action ≠ "REMOVE" →
        handleEvent g { Action := action, Peer := peer } s = s := by
  refine ⟨?_, ?_, ?_⟩
  · simp [handleEvent, cvAddPeer, pfAddPortforwarding]
  · have : ¬ ("REMOVE" = "ADD") := by decide
    simp [handleEvent, cvRemovePeer, pfRemovePortforwarding, this]
  · intro action h1 h2
    simp [handleEvent, h1, h2]

/-- C9 at the unknown-action scenario: an event with action `FOO`. -/
theorem handleEvent_dispatch_witness :
    (fixture.eventFoo.Action ≠ "ADD" ∧ fixture.eventFoo.Action ≠ "REMOVE") ∧
      handleEvent fixture.globals { Action := fixture.eventFoo.Action, Peer := fixture.peerA1 }
          { world := fixture.worldOf [fixture.freshA], pf := [] } =
        { world := fixture.worldOf [fixture.freshA], pf := [] } :=
  ⟨⟨by decide, by decide⟩,
    (handleEvent_dispatch fixture.globals fixture.peerA1
      { world := fixture.worldOf [fixture.freshA], pf := [] }).2.2 fixture.eventFoo.Action
      (by decide) (by decide)⟩

end manager

/-! ## The event source after cancellation -/

namespace subscriber

/-- After cancellation an iteration of `reconnect` sleeps, dials once, fails, counts the
failure and starts the next `reconnect`. -/
theorem step_reconnect_cancelled (s : State) (a : Answer) (h : s.task = Task.reconnect) :
    step true s a =
      { s with
        dials := s.dials + 1
        sleeps := s.sleeps + 1
        metrics := s.metrics ++ ["websocket_reconnect_error"]
        calls := s.calls ++ [Call.Sleep, Call.Dial] } := by
  obtain ⟨t, d, sl, cl, ch, m, cs⟩ := s
  simp only at h
  subst h
  simp [step, reconnect, connect, websocketDial]

theorem runCancelled_reconnect (answers : List Answer) (s : State)
    (h : s.task = Task.reconnect) :
    runCancelled s answers =
      { s with
        dials := s.dials + answers.length
        sleeps := s.sleeps + answers.length
        metrics := s.metrics ++ List.replicate answers.length "websocket_reconnect_error"
        calls := s.calls ++ backoffCalls answers.length } := by
  induction answers generalizing s with
  | nil => simp [runCancelled, backoffCalls]
  | cons a rest ih =>
    have h1 := step_reconnect_cancelled s a h
    have h2 := ih (step true s a) (by rw [h1]; exact h)
    unfold runCancelled at h2 ⊢
    rw [List.foldl_cons, h2, h1]
    simp [List.replicate_succ, Nat.add_assoc, Nat.add_comm 1, backoffCalls]

theorem runCancelled_idle (answers : List Answer) (s : State) (h : s.task = Task.idle) :
    runCancelled s answers = s := by
  induction answers with
  | nil => rfl
  | cons a rest ih =>
    have h1 : step true s a = s := by simp [step, h]
    unfold runCancelled at ih ⊢
    rw [List.foldl_cons, h1]
    exact ih

/-- After cancellation the call `wsjson.Read` of `read` fails; `read` counts the error,
closes the connection and starts `reconnect`. -/
theorem step_read_cancelled (s : State) (a : Answer) (conn : Nat)
    (h : s.task = Task.read conn) :
    step true s a =
      { s with
        task := Task.reconnect
        closed := s.closed ++ [conn]
        metrics := s.metrics ++ ["websocket_error"]
        calls := s.calls ++ [Call.Read conn, Call.Close conn] } := by
  obtain ⟨t, d, sl, cl, ch, m, cs⟩ := s
  simp only at h
  subst h
  simp [step, read, wsjsonRead]

theorem runCancelled_read (a : Answer) (rest : List Answer) (s : State) (conn : Nat)
    (h : s.task = Task.read conn) :
    runCancelled s (a :: rest) =
      { s with
        task := Task.reconnect
        closed := s.closed ++ [conn]
        dials := s.dials + rest.length
        sleeps := s.sleeps + rest.length
        metrics := s.metrics ++
          "websocket_error" :: List.replicate rest.length "websocket_reconnect_error"
        calls := s.calls ++ Call.Read conn :: Call.Close conn :: backoffCalls rest.length } := by
  have h1 := step_read_cancelled s a conn h
  have h2 := runCancelled_reconnect rest (step true s a) (by rw [h1])
  unfold runCancelled at h2 ⊢
  rw [List.foldl_cons, h2, h1]
  simp

/-- A `read` that holds an event stays on its send until the consumer is ready. -/
theorem runCancelled_send (answers : List Answer) (s : State) (conn : Nat) (v : cavpnEvent)
    (h : s.task = Task.send conn v) :
    match answers.dropWhile (fun a => !a.consumerReady) with
    | [] => runCancelled s answers = s
    | _ :: rest =>
      runCancelled s answers =
        runCancelled { s with task := Task.read conn, channel := s.channel ++ [v] } rest := by
  induction answers with
  | nil => simp [runCancelled]
  | cons a rest ih =>
    by_cases hr : a.consumerReady = true
    · have h1 : step true s a =
          { s with task := Task.read conn, channel := s.channel ++ [v] } := by
        obtain ⟨t, d, sl, cl, ch, m, cs⟩ := s
        simp only at h
        subst h
        simp [step, send, hr]
      simp only [List.dropWhile_cons, hr, Bool.not_true, Bool.false_eq_true, if_false]
      unfold runCancelled
      rw [List.foldl_cons, h1]
    · have h1 : step true s a = s := by
        obtain ⟨t, d, sl, cl, ch, m, cs⟩ := s
        simp only at h
        subst h
        simp [step, send, hr]
      have hr2 : a.consumerReady = false := by simpa using hr
      simp only [List.dropWhile_cons, hr2, Bool.not_false, if_true]
      have e : runCancelled s (a :: rest) = runCancelled s rest := by
        unfold runCancelled
        rw [List.foldl_cons, h1]
      rw [e]
      exact ih

/-- C10 fails on the code: `Subscribe` connects (connection 1, one dial), then the
token is cancelled. Three steps later the event source has slept twice and dialled
twice more, and its `reconnect` goroutine is alive: nothing in `read`, `reconnect` or
`connect` looks at the token. -/
theorem reconnect_continues_after_cancel :
    (Subscribe false (DialResult.conn 1) {}).2 =
        { task := Task.read 1, dials := 1, calls := [Call.Dial] } ∧
      (runCancelled (Subscribe false (DialResult.conn 1) {}).2
        [fixture.answer, fixture.answer, fixture.answer]).dials = 3 ∧
      (runCancelled (Subscribe false (DialResult.conn 1) {}).2
        [fixture.answer, fixture.answer, fixture.answer]).task = Task.reconnect ∧
      (runCancelled (Subscribe false (DialResult.conn 1) {}).2
        [fixture.answer, fixture.answer, fixture.answer]).metrics =
        ["websocket_error", "websocket_reconnect_error", "websocket_reconnect_error"] ∧
      (runCancelled (Subscribe false (DialResult.conn 1) {}).2
        [fixture.answer, fixture.answer, fixture.answer]).calls =
        [Call.Dial, Call.Read 1, Call.Close 1, Call.Sleep, Call.Dial, Call.Sleep, Call.Dial] := by
  decide

/-- An event read before the token is cancelled and not yet received by the consumer is
still delivered after the cancellation; the next `wsjson.Read` then fails and
`reconnect` starts. -/
theorem parked_event_is_delivered_after_cancel :
    step false { task := Task.read 1 } fixture.answerEvent =
        { task := Task.send 1 fixture.eventFoo, calls := [Call.Read 1] } ∧
      (runCancelled (step false { task := Task.read 1 } fixture.answerEvent)
        [fixture.answer]).channel = [fixture.eventFoo] ∧
      (runCancelled (step false { task := Task.read 1 } fixture.answerEvent)
        [fixture.answer, fixture.answer, fixture.answer]).channel = [fixture.eventFoo] ∧
      (runCancelled (step false { task := Task.read 1 } fixture.answerEvent)
        [fixture.answer, fixture.answer, fixture.answer]).task = Task.reconnect := by
  decide

/-- C10, amended. Once the token is cancelled (the library calls then fail), from every
state of the event source and for every run of it: a `reconnect` goroutine never
stops, and each of its iterations is one sleep, then one dial that fails and is
counted in `websocket_reconnect_error`, so no connection is established and
`websocket_reconnect_success` is not counted; a `read` about to call `wsjson.Read`
fails at that call, counts `websocket_error`, closes its connection and starts
`reconnect`; a `read` that holds an event stays on its send until the consumer
receives it and then goes back to `wsjson.Read`; an event source that never connected
does nothing. Each case gives the whole state after the run. -/
theorem cancelled_source_dials_in_vain (s : State) (answers : List Answer) :
    match s.task with
    | Task.idle => runCancelled s answers = s
    | Task.reconnect =>
      runCancelled s answers =
        { s with
          dials := s.dials + answers.length
          sleeps := s.sleeps + answers.length
          metrics := s.metrics ++ List.replicate answers.length "websocket_reconnect_error"
          calls := s.calls ++ backoffCalls answers.length }
    | Task.read conn =>
      match answers with
      | [] => runCancelled s [] = s
      | _ :: rest =>
        runCancelled s answers =
          { s with
            task := Task.reconnect
            closed := s.closed ++ [conn]
            dials := s.dials + rest.length
            sleeps := s.sleeps + rest.length
            metrics := s.metrics ++
              "websocket_error" :: List.replicate rest.length "websocket_reconnect_error"
            calls := s.calls ++
              Call.Read conn :: Call.Close conn :: backoffCalls rest.length }
    | Task.send conn v =>
      match answers.dropWhile (fun a => !a.consumerReady) with
      | [] => runCancelled s answers = s
      | _ :: rest =>
        runCancelled s answers =
          runCancelled { s with task := Task.read conn, channel := s.channel ++ [v] } rest := by
  cases ht : s.task with
  | idle => exact runCancelled_idle answers s ht
  | reconnect =>
    have h := runCancelled_reconnect answers s ht
    rw [ht] at h
    exact h
  | read conn =>
    cases answers with
    | nil => rfl
    | cons a rest => exact runCancelled_read a rest s conn ht
  | send conn v => exact runCancelled_send answers s conn v ht

end subscriber

/-! ## The reset predicate and the connected predicate -/

namespace wireguard

open cvtypes cvctrl

/-- The saturation of `time.Sub` does not change a comparison with a bound that a
duration can hold. -/
theorem Since_gt_iff (now t : time.Time) (d : time.Duration) (h1 : time.minDuration ≤ d)
    (h2 : d < time.maxDuration) : time.Since now t > d ↔ now - t > d := by
  unfold time.Since time.Sub
  split_ifs with ha hb
  · constructor <;> intro _ <;> linarith
  · constructor <;> intro _ <;> linarith
  · exact Iff.rfl

theorem Since_le_iff (now t : time.Time) (d : time.Duration) (h1 : time.minDuration ≤ d)
    (h2 : d < time.maxDuration) : time.Since now t ≤ d ↔ now - t ≤ d := by
  have h := Since_gt_iff now t d h1 h2
  constructor
  · intro hle
    by_contra hc
    have hgt : time.Since now t > d := h.mpr (not_le.mp hc)
    exact absurd hle (not_le.mpr hgt)
  · intro hle
    by_contra hc
    have hgt : now - t > d := h.mp (not_le.mp hc)
    exact absurd hle (not_le.mpr hgt)

theorem inactivityTime_bounds :
    time.minDuration ≤ inactivityTime ∧ inactivityTime < time.maxDuration := by
  unfold inactivityTime time.Minute time.Second time.minDuration time.maxDuration
  norm_num

theorem handshakeInterval_bounds :
    time.minDuration ≤ handshakeInterval ∧ handshakeInterval < time.maxDuration := by
  unfold handshakeInterval time.Minute time.Second time.minDuration time.maxDuration
  norm_num

/-- `needsReset` in plain arithmetic on the instants. -/
theorem needsReset_iff (now : time.Time) (p : Peer) :
    needsReset now p = true ↔
      p.LastHandshakeTime ≠ 0 ∧ now - p.LastHandshakeTime > inactivityTime := by
  have h := Since_gt_iff now p.LastHandshakeTime inactivityTime inactivityTime_bounds.1
    inactivityTime_bounds.2
  simp only [needsReset, time.IsZero, Bool.and_eq_true, Bool.not_eq_true', decide_eq_false_iff_not,
    decide_eq_true_eq, ite_eq_left_iff, not_and, Bool.false_eq_true, imp_false, not_not,
    Classical.not_imp, h, ne_eq]

/-- `countConnectedPeers` counts the peers whose elapsed time is within the handshake
interval. -/
theorem countConnectedPeers_eq (now : time.Time) (ps : List Peer) :
    countConnectedPeers now ps =
      (ps.filter (fun p =>
        decide (time.Since now p.LastHandshakeTime ≤ handshakeInterval))).length := by
  unfold countConnectedPeers
  have key : ∀ (l : List Peer) (n : Nat),
      l.foldl
        (fun connectedPeers peer =>
          if time.Since now peer.LastHandshakeTime ≤ handshakeInterval then connectedPeers + 1
          else connectedPeers) n =
        n + (l.filter (fun p =>
          decide (time.Since now p.LastHandshakeTime ≤ handshakeInterval))).length := by
    intro l
    induction l with
    | nil => intro n; rfl
    | cons q rest ih =>
      intro n
      rw [List.foldl_cons, ih]
      by_cases hq : time.Since now q.LastHandshakeTime ≤ handshakeInterval
      · simp [List.filter_cons, hq]
        omega
      · simp [List.filter_cons, hq]
  rw [key ps 0]
  omega

/-- A single peer is counted as connected exactly when its handshake is at most two
minutes old. -/
theorem countConnectedPeers_singleton (now : time.Time) (p : Peer) :
    countConnectedPeers now [p] = 1 ↔ now - p.LastHandshakeTime ≤ handshakeInterval := by
  rw [countConnectedPeers_eq, ← Since_le_iff now p.LastHandshakeTime handshakeInterval
    handshakeInterval_bounds.1 handshakeInterval_bounds.2]
  by_cases hq : time.Since now p.LastHandshakeTime ≤ handshakeInterval
  · simp [List.filter_cons, hq]
  · simp [List.filter_cons, hq]

/-- A peer counted as connected at `now` is not reset by a check made less than a
minute later: the clock readings of `countConnectedPeers` and `needsReset` need not be
the same instant. -/
theorem needsReset_false_shortly_after_connected (now later : time.Time) (p : Peer)
    (hc : countConnectedPeers now [p] = 1) (hl : later - now < time.Minute) :
    needsReset later p = false := by
  have h1 := (countConnectedPeers_singleton now p).mp hc
  cases hr : needsReset later p with
  | false => rfl
  | true =>
    exfalso
    have h2 := ((needsReset_iff later p).mp hr).2
    unfold handshakeInterval at h1
    unfold inactivityTime at h2
    linarith

/-- C11. For every observed peer and every instant `now`: `needsReset` holds exactly
when the last-handshake time is not the zero time and `now` minus it exceeds
`inactivityTime`, which is 3 minutes; a peer is counted by `countConnectedPeers` exactly
when `now` minus its last-handshake time is at most `handshakeInterval`, which is 2
minutes; and a peer counted as connected at `now` does not satisfy `needsReset` at
`now` and has no record in `resetPeers`, on any interface that holds it, for any
roster. -/
theorem needsReset_exact_and_never_on_connected_peer (env : Env) (now : time.Time)
    (p : Peer) :
    (inactivityTime = 180000000000 ∧ handshakeInterval = 120000000000) ∧
      (needsReset now p = true ↔
        p.LastHandshakeTime ≠ 0 ∧ now - p.LastHandshakeTime > inactivityTime) ∧
      (countConnectedPeers now [p] = 1 ↔ now - p.LastHandshakeTime ≤ handshakeInterval) ∧
      (countConnectedPeers now [p] = 1 →
        needsReset now p = false ∧
          ∀ (R : api.cavpnPeerList) (d : String) (ps : List Peer),
            (keysOf ps).Nodup → p ∈ ps →
              ∀ c ∈ (batches env now (mapPeers env R) d ps).2, c.PublicKey ≠ p.PublicKey) := by
  refine ⟨⟨?_, ?_⟩, needsReset_iff now p, countConnectedPeers_singleton now p, ?_⟩
  · unfold inactivityTime time.Minute time.Second
    norm_num
  · unfold handshakeInterval time.Minute time.Second
    norm_num
  · intro hc
    have hr : needsReset now p = false :=
      needsReset_false_shortly_after_connected now now p hc (by
        unfold time.Minute time.Second
        norm_num)
    refine ⟨hr, ?_⟩
    intro R d ps hn hp c hc2 hk
    have hE : peerAt ps p.PublicKey = some p := peerAt_of_mem hn hp
    have hres := resetPeers_at env now (mapPeers env R) d ps p.PublicKey hn
    rw [hE] at hres
    have hnil : resetAt now p.PublicKey ((mapPeers env R).get p.PublicKey) (some p) = [] := by
      cases (mapPeers env R).get p.PublicKey <;> simp [resetAt, hr]
    rw [hnil] at hres
    have : c ∈ (batches env now (mapPeers env R) d ps).2.filter
        (fun c => decide (c.PublicKey = p.PublicKey)) :=
      List.mem_filter.mpr ⟨hc2, by simpa using hk⟩
    rw [hres] at this
    simp at this

/-- C11 at a live peer: peer A one minute after its handshake, on `cv0`, in the roster.
Next to it, the peer whose handshake is four minutes old does satisfy `needsReset`, and
of the three peers only the live one is counted. -/
theorem needsReset_exact_and_never_on_connected_peer_witness :
    (countConnectedPeers fixture.now [fixture.liveA] = 1 ∧ (keysOf [fixture.liveA]).Nodup ∧
        fixture.liveA ∈ [fixture.liveA]) ∧
      needsReset fixture.now fixture.staleA = true ∧
      countConnectedPeers fixture.now [fixture.staleA, fixture.liveA, fixture.freshA] = 1 ∧
      (needsReset fixture.now fixture.liveA = true ↔
        fixture.liveA.LastHandshakeTime ≠ 0 ∧
          fixture.now - fixture.liveA.LastHandshakeTime > inactivityTime) ∧
      (countConnectedPeers fixture.now [fixture.liveA] = 1 ↔
        fixture.now - fixture.liveA.LastHandshakeTime ≤ handshakeInterval) ∧
      needsReset fixture.now fixture.liveA = false ∧
      ∀ c ∈ (batches fixture.env fixture.now (mapPeers fixture.env [fixture.peerA1]) "cv0"
          [fixture.liveA]).2,
        c.PublicKey ≠ fixture.liveA.PublicKey :=
  have h := needsReset_exact_and_never_on_connected_peer fixture.env fixture.now fixture.liveA
  ⟨⟨by decide, by decide, by decide⟩, by decide, by decide, h.2.1, h.2.2.1,
    (h.2.2.2 (by decide)).1,
    (h.2.2.2 (by decide)).2 [fixture.peerA1] "cv0" [fixture.liveA] (by decide) (by decide)⟩

end wireguard
